import Mathlib

/-!
Verification of the `pymavi` client library, centered on the chat streaming
response decoder `MaviClient._stream_response` of `src/maviclient.py` and its
non-streaming counterpart `_get_full_response`.  The decoder consumes raw byte
chunks, UTF-8 decodes each chunk (dropping undecodable chunks), Python-strips
the decoded text, appends it to a buffer, strips one leading `data:` tag from
the buffer, and then repeatedly extracts complete JSON values from the front of
the buffer with `json.JSONDecoder().raw_decode`, yielding `data.msg` payloads
for success envelopes and returning `(code, msg)` for error envelopes.

Everything is embedded shallowly: Python strings are `List Char`, byte chunks
are `List Nat`, the JSON parser is a fuel-indexed recursive descent parser
mirroring Python's `json` module as used by the source, and the generator is a
function from the chunk list to the list of yielded values plus a termination
marker (normal exhaustion, the generator's return value, or an uncaught
exception).
-/

namespace Mavi

/-- The opening brace character. -/
def lbrace : Char := Char.ofNat 123

/-- The closing brace character. -/
def rbrace : Char := Char.ofNat 125

/-- Code points for which Python's `str.isspace` is true; `str.strip` with no
arguments removes exactly these characters from both ends. -/
def pyWsVals : List Nat :=
  [0x09, 0x0A, 0x0B, 0x0C, 0x0D, 0x1C, 0x1D, 0x1E, 0x1F, 0x20, 0x85, 0xA0,
   0x1680, 0x2000, 0x2001, 0x2002, 0x2003, 0x2004, 0x2005, 0x2006, 0x2007,
   0x2008, 0x2009, 0x200A, 0x2028, 0x2029, 0x202F, 0x205F, 0x3000]

/-- Python whitespace test (`str.isspace` on a single character). -/
def pyWs (c : Char) : Bool := pyWsVals.contains c.toNat

/-- Python `str.strip()`: remove leading and trailing whitespace. -/
def pyStrip (l : List Char) : List Char :=
  ((l.dropWhile pyWs).reverse.dropWhile pyWs).reverse

/-- Removal of trailing whitespace only (reasoning helper: `pyStrip` is this
composed after the leading `dropWhile`). -/
def stripRight (l : List Char) : List Char := (l.reverse.dropWhile pyWs).reverse

/-- JSON structural whitespace (the only characters the `json` module skips
between tokens): space, tab, newline, carriage return. -/
def jsonWs (c : Char) : Bool := c = ' ' || c = '\t' || c = '\n' || c = '\r'

/-- Skip JSON structural whitespace. -/
def skipWs (l : List Char) : List Char := l.dropWhile jsonWs

/-- Decoded JSON values as produced by Python's `json` module.  Numbers keep
their lexeme (the source never inspects numeric values, only compares fields
against the string sentinel `"0000"`, so the lexeme is a faithful injective
representation; `NaN`/`Infinity`/`-Infinity` are also kept as lexemes).
Objects keep their member list in parse order; lookup takes the last
occurrence of a duplicated key, matching `dict` update semantics. -/
inductive Json where
  | null : Json
  | bool (b : Bool) : Json
  | num (lex : List Char) : Json
  | str (s : List Char) : Json
  | arr (elems : List Json) : Json
  | obj (members : List (List Char × Json)) : Json

/-- Python `dict.get k` on a parsed object: last binding of `k` wins. -/
def objGet (ms : List (List Char × Json)) (k : List Char) : Option Json :=
  (ms.reverse.find? (fun p => p.1 = k)).map (fun p => p.2)

/-- Value of a hexadecimal digit, accepting both cases. -/
def hexVal (c : Char) : Option Nat :=
  if '0' ≤ c ∧ c ≤ '9' then some (c.toNat - 48)
  else if 'a' ≤ c ∧ c ≤ 'f' then some (c.toNat - 87)
  else if 'A' ≤ c ∧ c ≤ 'F' then some (c.toNat - 55)
  else none

/-- Prepend a character to the string being accumulated by the string parser. -/
def consFst (c : Char) (o : Option (List Char × List Char)) :
    Option (List Char × List Char) :=
  o.map (fun p => (c :: p.1, p.2))

/-- Parse exactly four hexadecimal digits. -/
def parseHex4 : List Char → Option (Nat × List Char)
  | a :: b :: x :: d :: rest =>
    match hexVal a, hexVal b, hexVal x, hexVal d with
    | some h1, some h2, some h3, some h4 => some (((h1 * 16 + h2) * 16 + h3) * 16 + h4, rest)
    | _, _, _, _ => none
  | _ => none

/-- Decode one escape sequence (the backslash already consumed): the short
escapes and `\uXXXX`, with a `\uXXXX\uXXXX` surrogate pair combined into one
code point, as Python's strict `scanstring` does.  Divergence: Python would
keep a *lone* surrogate as a character of the resulting `str`; lone
surrogates are not representable in `Char`, so this embedding fails on them
(no claim exercises lone surrogates). -/
def parseEsc : List Char → Option (Char × List Char)
  | [] => none
  | e :: rest2 =>
    if e = 'u' then
      match parseHex4 rest2 with
      | none => none
      | some (n, rest3) =>
        if 0xD800 ≤ n ∧ n ≤ 0xDBFF then
          match rest3 with
          | e2 :: u2 :: rest4 =>
            if e2 = '\\' ∧ u2 = 'u' then
              match parseHex4 rest4 with
              | none => none
              | some (m, rest5) =>
                if 0xDC00 ≤ m ∧ m ≤ 0xDFFF then
                  some (Char.ofNat (0x10000 + (n - 0xD800) * 0x400 + (m - 0xDC00)), rest5)
                else none
            else none
          | _ => none
        else if 0xDC00 ≤ n ∧ n ≤ 0xDFFF then none
        else some (Char.ofNat n, rest3)
    else if e = '"' then some ('"', rest2)
    else if e = '\\' then some ('\\', rest2)
    else if e = '/' then some ('/', rest2)
    else if e = 'b' then some (Char.ofNat 8, rest2)
    else if e = 'f' then some (Char.ofNat 12, rest2)
    else if e = 'n' then some ('\n', rest2)
    else if e = 'r' then some (Char.ofNat 13, rest2)
    else if e = 't' then some ('\t', rest2)
    else none

/-- Parse the body of a JSON string literal (the opening quote already
consumed) up to and including the closing quote, as Python's strict
`scanstring` does: raw control characters are rejected and escapes are
decoded by `parseEsc`.  Fuel bounds the character count; every step strictly
consumes input, so `length + 1` fuel is always sufficient (call sites pass
exactly that). -/
def parseStringBody : Nat → List Char → Option (List Char × List Char)
  | 0, _ => none
  | _ + 1, [] => none
  | fuel + 1, c :: rest =>
    if c = '"' then some ([], rest)
    else if c = '\\' then
      match parseEsc rest with
      | none => none
      | some (ec, r2) => consFst ec (parseStringBody fuel r2)
    else if c.toNat < 0x20 then none
    else consFst c (parseStringBody fuel rest)

/-- Decimal digit test. -/
def isDigitC (c : Char) : Bool := '0' ≤ c && c ≤ '9'

/-- Lex a JSON number exactly as Python's
`NUMBER_RE = (-?(?:0|[1-9]\d+|[1-9]))(\.\d+)?([eE][-+]?\d+)?` would match at
the front of the input (maximal munch, optional parts contribute nothing when
they fail to match). -/
def parseNumberLex (l : List Char) : Option (List Char × List Char) :=
  let intPart : List Char → Option (List Char × List Char) := fun m =>
    match m with
    | [] => none
    | c :: rest =>
      if c = '0' then some ([c], rest)
      else if '1' ≤ c ∧ c ≤ '9' then
        some (c :: rest.takeWhile isDigitC, rest.dropWhile isDigitC)
      else none
  let fracPart : List Char → List Char × List Char := fun m =>
    match m with
    | c :: rest =>
      if c = '.' then
        match rest.takeWhile isDigitC with
        | [] => ([], m)
        | ds => (c :: ds, rest.dropWhile isDigitC)
      else ([], m)
    | [] => ([], m)
  let expPart : List Char → List Char × List Char := fun m =>
    match m with
    | c :: rest =>
      if c = 'e' ∨ c = 'E' then
        let sgn : List Char × List Char :=
          match rest with
          | s :: r2 => if s = '+' ∨ s = '-' then ([s], r2) else ([], rest)
          | [] => ([], rest)
        match sgn.2.takeWhile isDigitC with
        | [] => ([], m)
        | ds => (c :: sgn.1 ++ ds, sgn.2.dropWhile isDigitC)
      else ([], m)
    | [] => ([], m)
  let negPart : List Char × List Char :=
    match l with
    | c :: rest => if c = '-' then ([c], rest) else ([], l)
    | [] => ([], l)
  match intPart negPart.2 with
  | none => none
  | some (ip, r1) =>
    let fr := fracPart r1
    let ex := expPart fr.2
    some (negPart.1 ++ ip ++ fr.1 ++ ex.1, ex.2)

mutual

/-- Parse one JSON value at offset 0 of the input, as Python's
`JSONDecoder.raw_decode` scanner does: no leading whitespace is skipped, and
the recognized forms are strings, objects, arrays, `null`/`true`/`false`, the
number regex, and the constants `NaN`/`Infinity`/`-Infinity`.  Fuel bounds the
nesting recursion; one unit is consumed per `parseValue`/`parseMembers`/
`parseElements` call, and every such call strictly consumes input, so
`length + 1` fuel is always sufficient (see `rawDecode`). -/
def parseValue : Nat → List Char → Option (Json × List Char)
  | 0, _ => none
  | _ + 1, [] => none
  | fuel + 1, c :: rest =>
    if c = '"' then (parseStringBody (rest.length + 1) rest).map (fun p => (Json.str p.1, p.2))
    else if c = lbrace then
      match skipWs rest with
      | [] => none
      | d :: r1 =>
        if d = rbrace then some (Json.obj [], r1)
        else (parseMembers fuel (d :: r1)).map (fun p => (Json.obj p.1, p.2))
    else if c = '[' then
      match skipWs rest with
      | [] => none
      | d :: r1 =>
        if d = ']' then some (Json.arr [], r1)
        else (parseElements fuel (d :: r1)).map (fun p => (Json.arr p.1, p.2))
    else if c = 'n' then
      match rest with
      | 'u' :: 'l' :: 'l' :: r => some (Json.null, r)
      | _ => none
    else if c = 't' then
      match rest with
      | 'r' :: 'u' :: 'e' :: r => some (Json.bool true, r)
      | _ => none
    else if c = 'f' then
      match rest with
      | 'a' :: 'l' :: 's' :: 'e' :: r => some (Json.bool false, r)
      | _ => none
    else
      match parseNumberLex (c :: rest) with
      | some (lex, r) => some (Json.num lex, r)
      | none =>
        if c = 'N' then
          match rest with
          | 'a' :: 'N' :: r => some (Json.num ['N', 'a', 'N'], r)
          | _ => none
        else if c = 'I' then
          match rest with
          | 'n' :: 'f' :: 'i' :: 'n' :: 'i' :: 't' :: 'y' :: r =>
            some (Json.num ['I', 'n', 'f', 'i', 'n', 'i', 't', 'y'], r)
          | _ => none
        else if c = '-' then
          match rest with
          | 'I' :: 'n' :: 'f' :: 'i' :: 'n' :: 'i' :: 't' :: 'y' :: r =>
            some (Json.num ['-', 'I', 'n', 'f', 'i', 'n', 'i', 't', 'y'], r)
          | _ => none
        else none

/-- Parse the members of an object, positioned at a (non-`}`) character after
the opening brace and surrounding whitespace: `"key" ws : ws value ws` then
`,`-separated further members, ending at `}`. -/
def parseMembers : Nat → List Char → Option (List (List Char × Json) × List Char)
  | 0, _ => none
  | _ + 1, [] => none
  | fuel + 1, c :: r =>
      if c = '"' then
        match parseStringBody (r.length + 1) r with
        | none => none
        | some (key, r2) =>
          match skipWs r2 with
          | [] => none
          | d :: r3 =>
            if d = ':' then
              match parseValue fuel (skipWs r3) with
              | none => none
              | some (v, r4) =>
                match skipWs r4 with
                | [] => none
                | e :: r5 =>
                  if e = ',' then
                    (parseMembers fuel (skipWs r5)).map (fun p => ((key, v) :: p.1, p.2))
                  else if e = rbrace then some ([(key, v)], r5)
                  else none
            else none
      else none

/-- Parse the elements of an array, positioned at a (non-`]`) character after
the opening bracket and surrounding whitespace. -/
def parseElements : Nat → List Char → Option (List Json × List Char)
  | 0, _ => none
  | fuel + 1, l =>
    match parseValue fuel l with
    | none => none
    | some (v, r) =>
      match skipWs r with
      | [] => none
      | d :: r2 =>
        if d = ',' then (parseElements fuel (skipWs r2)).map (fun p => (v :: p.1, p.2))
        else if d = ']' then some ([v], r2)
        else none

end

/-- `json.JSONDecoder().raw_decode` on the buffer: parse one complete JSON
value starting at offset 0, returning the value and the unconsumed remainder
(the source computes the same remainder from the returned end index).  `none`
is `json.JSONDecodeError`. -/
def rawDecode (l : List Char) : Option (Json × List Char) :=
  parseValue (l.length + 1) l

/-! ## UTF-8, matching Python `bytes.decode('utf-8')` (strict) and `str.encode` -/

/-- UTF-8 encoding of one scalar value. -/
def utf8EncodeChar (c : Char) : List Nat :=
  if c.toNat < 0x80 then [c.toNat]
  else if c.toNat < 0x800 then [0xC0 + c.toNat / 64, 0x80 + c.toNat % 64]
  else if c.toNat < 0x10000 then
    [0xE0 + c.toNat / 4096, 0x80 + c.toNat / 64 % 64, 0x80 + c.toNat % 64]
  else
    [0xF0 + c.toNat / 262144, 0x80 + c.toNat / 4096 % 64, 0x80 + c.toNat / 64 % 64,
     0x80 + c.toNat % 64]

/-- UTF-8 encoding of a string, as `str.encode('utf-8')`. -/
def utf8Encode : List Char → List Nat
  | [] => []
  | c :: cs => utf8EncodeChar c ++ utf8Encode cs

/-- Decode one UTF-8 sequence from the front of the byte list, strictly:
truncated sequences, stray continuation bytes, overlong forms, surrogates and
values beyond U+10FFFF are all rejected. -/
def utf8DecodeChar : List Nat → Option (Char × List Nat)
  | [] => none
  | b :: rest =>
    if b < 0x80 then some (Char.ofNat b, rest)
    else if b < 0xC2 then none
    else if b ≤ 0xDF then
      match rest with
      | [] => none
      | b2 :: rest2 =>
        if 0x80 ≤ b2 ∧ b2 ≤ 0xBF then
          some (Char.ofNat ((b - 0xC0) * 64 + (b2 - 0x80)), rest2)
        else none
    else if b ≤ 0xEF then
      match rest with
      | b2 :: b3 :: rest2 =>
        if ((if b = 0xE0 then 0xA0 else 0x80) ≤ b2 ∧ b2 ≤ (if b = 0xED then 0x9F else 0xBF))
            ∧ (0x80 ≤ b3 ∧ b3 ≤ 0xBF) then
          some (Char.ofNat ((b - 0xE0) * 4096 + (b2 - 0x80) * 64 + (b3 - 0x80)), rest2)
        else none
      | _ => none
    else if b ≤ 0xF4 then
      match rest with
      | b2 :: b3 :: b4 :: rest2 =>
        if ((if b = 0xF0 then 0x90 else 0x80) ≤ b2 ∧ b2 ≤ (if b = 0xF4 then 0x8F else 0xBF))
            ∧ (0x80 ≤ b3 ∧ b3 ≤ 0xBF) ∧ (0x80 ≤ b4 ∧ b4 ≤ 0xBF) then
          some (Char.ofNat ((b - 0xF0) * 262144 + (b2 - 0x80) * 4096 + (b3 - 0x80) * 64 + (b4 - 0x80)),
            rest2)
        else none
      | _ => none
    else none

/-- Decode a whole byte list one UTF-8 sequence at a time.  Fuel bounds the
character count; every sequence consumes at least one byte, so fuel equal to
the byte count is always sufficient (see `utf8Decode`). -/
def utf8DecodeLoop : Nat → List Nat → Option (List Char)
  | _, [] => some []
  | 0, _ :: _ => none
  | fuel + 1, b :: rest =>
    match utf8DecodeChar (b :: rest) with
    | none => none
    | some (c, r2) => (utf8DecodeLoop fuel r2).map (fun cs => c :: cs)

/-- Strict UTF-8 decoding of a byte list, as Python `bytes.decode('utf-8')`:
`none` is `UnicodeDecodeError`. -/
def utf8Decode (l : List Nat) : Option (List Char) := utf8DecodeLoop l.length l

/-! ## The streaming decoder `MaviClient._stream_response` -/

/-- The `"data:"` tag whose single leading occurrence the source strips from
the buffer (`buffer.startswith("data:")`). -/
def dataTag : List Char := "data:".data

/-- `buffer.startswith("data:")`. -/
def dataTagAtFront (l : List Char) : Bool := dataTag.isPrefixOf l

/-- `json_data.get('data', {}).get('msg', "")` of the success branch: absent
`data` defaults to the empty dict, whose `msg` lookup defaults to `""`;
a present non-dict `data` makes the chained `.get` raise `AttributeError`
(modelled as `none`). -/
def envPayload (ms : List (List Char × Json)) : Option Json :=
  match objGet ms ("data".data) with
  | none => some (Json.str [])
  | some (Json.obj ms2) => some ((objGet ms2 ("msg".data)).getD (Json.str []))
  | some _ => none

/-- Outcome of the inner `while True` parse loop on the buffer. -/
inductive LoopOut where
  | needMore (buf : List Char)
  | terminalError (code msg : Json)
  | crashedLoop

/-- The inner `while True` loop of `_stream_response`: repeatedly `raw_decode`
the buffer; on success strip the parsed part (`buffer[index:].strip()`),
then on a non-`'0000'` `code` return the `(get('code',""), get('msg',""))`
pair, otherwise yield the `data.msg` payload and continue; on
`JSONDecodeError` break and wait for more chunks.  A parsed non-dict value
makes `json_data.get` raise `AttributeError` (`crashedLoop`).  Fuel bounds
the iteration count; each successful parse strictly shrinks the buffer, so
`length + 1` fuel is always sufficient (see `processChunk`). -/
def parseLoop : Nat → List Char → List Json × LoopOut
  | 0, buf => ([], .needMore buf)
  | fuel + 1, buf =>
    match rawDecode buf with
    | none => ([], .needMore buf)
    | some (v, rest) =>
      let buf' := pyStrip rest
      match v with
      | Json.obj ms =>
        match objGet ms ("code".data) with
        | some (Json.str s) =>
          if s = "0000".data then
            match envPayload ms with
            | some pl =>
              let r := parseLoop fuel buf'
              (pl :: r.1, r.2)
            | none => ([], .crashedLoop)
          else ([], .terminalError (Json.str s) ((objGet ms ("msg".data)).getD (Json.str [])))
        | some other =>
          ([], .terminalError other ((objGet ms ("msg".data)).getD (Json.str [])))
        | none =>
          ([], .terminalError (Json.str []) ((objGet ms ("msg".data)).getD (Json.str [])))
      | _ => ([], .crashedLoop)

/-- Outcome of processing one chunk. -/
inductive ChunkOut where
  | more (buf : List Char)
  | terminalError (code msg : Json)
  | crashedChunk

/-- One iteration of `for chunk in response.iter_content(...)`: skip empty
chunks (`if chunk:`), UTF-8 decode (on `UnicodeDecodeError` `continue`,
leaving the buffer untouched), Python-strip the decoded text, append it to
the buffer, strip one leading `"data:"` tag (`buffer[5:].strip()`), then run
the parse loop. -/
def processChunk (buf : List Char) (chunk : List Nat) : List Json × ChunkOut :=
  if chunk = [] then ([], .more buf)
  else
    match utf8Decode chunk with
    | none => ([], .more buf)
    | some text =>
      let b1 := buf ++ pyStrip text
      let b2 := if dataTagAtFront b1 then pyStrip (b1.drop 5) else b1
      match parseLoop (b2.length + 1) b2 with
      | (ys, .needMore b3) => (ys, .more b3)
      | (ys, .terminalError c m) => (ys, .terminalError c m)
      | (ys, .crashedLoop) => (ys, .crashedChunk)

/-- How the generator's iteration terminates, beyond the yielded elements:
`ended` is falling off the chunk loop (the generator returns `None`),
`errorReturn` is `return code, msg` — a `StopIteration` value, *not* a
yielded element — and `crashed` is an uncaught exception. -/
inductive StreamEnd where
  | ended
  | errorReturn (code msg : Json)
  | crashed

/-- Run `_stream_response` from a given buffer over the remaining chunk
sequence, collecting the yielded values in order plus the termination. -/
def decodeFrom : List Char → List (List Nat) → List Json × StreamEnd
  | _, [] => ([], .ended)
  | buf, c :: cs =>
    match processChunk buf c with
    | (ys, .more buf') =>
      let r := decodeFrom buf' cs
      (ys ++ r.1, r.2)
    | (ys, .terminalError cd m) => (ys, .errorReturn cd m)
    | (ys, .crashedChunk) => (ys, .crashed)

/-- The full streaming decoder: a fresh empty buffer over the chunk list. -/
def decodeStream (cs : List (List Nat)) : List Json × StreamEnd :=
  decodeFrom [] cs

/-! ## The non-streaming path `MaviClient._get_full_response` -/

/-- Outcome of `_get_full_response` on a 2xx body: the returned payload
string, the returned `(code, msg)` pair, or an uncaught exception
(`json.JSONDecodeError` or `AttributeError`, neither of which the source
catches). -/
inductive FullOut where
  | payload (p : Json)
  | errPair (code msg : Json)
  | raised

/-- `json.loads`: skip leading structural whitespace, parse one value, and
require only structural whitespace to remain ("Extra data" otherwise). -/
def jsonLoads (l : List Char) : Option Json :=
  match rawDecode (skipWs l) with
  | none => none
  | some (v, r) => if skipWs r = [] then some v else none

/-- `_get_full_response` on a 2xx response body: strip one leading `"data:"`
tag if present (note: the `else` branch applies no `.strip()` at all),
`json.loads` the content, then the same envelope dispatch as the streaming
path. -/
def fullResponse (bodyText : List Char) : FullOut :=
  let content := if dataTagAtFront bodyText then pyStrip (bodyText.drop 5) else bodyText
  match jsonLoads content with
  | none => FullOut.raised
  | some (Json.obj ms) =>
    match objGet ms ("code".data) with
    | some (Json.str s) =>
      if s = "0000".data then
        match envPayload ms with
        | some pl => FullOut.payload pl
        | none => FullOut.raised
      else FullOut.errPair (Json.str s) ((objGet ms ("msg".data)).getD (Json.str []))
    | some other => FullOut.errPair other ((objGet ms ("msg".data)).getD (Json.str []))
    | none => FullOut.errPair (Json.str []) ((objGet ms ("msg".data)).getD (Json.str []))
  | some _ => FullOut.raised

/-- The streaming-path observation that corresponds to each non-streaming
outcome: a yielded payload then normal end, a `(code,msg)` generator return
with nothing yielded, or a propagated exception. -/
def matchFull : FullOut → List Json × StreamEnd
  | .payload p => ([p], .ended)
  | .errPair c m => ([], .errorReturn c m)
  | .raised => ([], .crashed)

/-! ## Wire-format serializers (the envelopes the remote API sends; shape from
the spec's wire example `data: {"code":"0000","msg":"ok","data":{"msg":...}}`
and the error-envelope shape `{"code":..,"msg":..}`) -/

/-- Hexadecimal digit character (lowercase). -/
def hexDigit (n : Nat) : Char := Char.ofNat (if n < 10 then 48 + n else 87 + n)

/-- JSON string escaping for one character: quote and backslash get a short
escape, control characters a `\u00XX` escape, everything else is literal. -/
def escapeChar (c : Char) : List Char :=
  if c = '"' then ['\\', '"']
  else if c = '\\' then ['\\', '\\']
  else if c.toNat < 0x20 then
    ['\\', 'u', '0', '0', hexDigit (c.toNat / 16), hexDigit (c.toNat % 16)]
  else [c]

/-- JSON string escaping of a whole string. -/
def jsonEscapeList : List Char → List Char
  | [] => []
  | c :: cs => escapeChar c ++ jsonEscapeList cs

/-- The fixed text of a success envelope before the payload string. -/
def envHead : List Char := "\x7b\"code\":\"0000\",\"msg\":\"\",\"data\":\x7b\"msg\":\"".data

/-- The fixed text of a success envelope after the payload string. -/
def envTail : List Char := ['"', rbrace, rbrace]

/-- Serialized success envelope carrying payload `p`:
`{"code":"0000","msg":"","data":{"msg":"<escaped p>"}}`. -/
def envChars (p : String) : List Char := envHead ++ jsonEscapeList p.data ++ envTail

/-- The parsed value of `envChars p`. -/
def envVal (p : String) : Json :=
  Json.obj [("code".data, Json.str ("0000".data)), ("msg".data, Json.str []),
            ("data".data, Json.obj [("msg".data, Json.str p.data)])]

/-- Serialized stream of success envelopes, back to back. -/
def streamChars : List String → List Char
  | [] => []
  | p :: tl => envChars p ++ streamChars tl

/-- Error envelope text before the code string. -/
def errEnvHead : List Char := "\x7b\"code\":\"".data

/-- Error envelope text between the code and the message strings. -/
def errEnvMid : List Char := "\",\"msg\":\"".data

/-- Error envelope text after the message string. -/
def errEnvTail : List Char := ['"', rbrace]

/-- Serialized error envelope `{"code":"<code>","msg":"<msg>"}`. -/
def errEnvChars (code msg : String) : List Char :=
  errEnvHead ++ jsonEscapeList code.data ++ errEnvMid ++ jsonEscapeList msg.data ++ errEnvTail

/-- The parsed value of `errEnvChars code msg`. -/
def errEnvVal (code msg : String) : Json :=
  Json.obj [("code".data, Json.str code.data), ("msg".data, Json.str msg.data)]

/-- Concatenation of a chunking back into one text. -/
def joinChars : List (List Char) → List Char
  | [] => []
  | c :: cs => c ++ joinChars cs

/-- Invariant of the parse loop on envelope streams: the residual buffer is
always strictly shorter than the first remaining envelope (and empty when no
envelope remains). -/
def stuckLen (b : List Char) : List String → Prop
  | [] => b = []
  | p :: _ => b.length < (envChars p).length

/-! ## `MaviClient.search_video_metadata` default arguments (maviclient.py) -/

/-- Python `int()` truncation toward zero on a rational value. -/
def pyInt (q : ℚ) : ℤ := if 0 ≤ q then ⌊q⌋ else ⌈q⌉

/-- The state fixed when `maviclient.py` is imported: executing the class
body evaluates the default-argument expressions of `search_video_metadata`
once, reading the clock (`time.time()`) at that moment. -/
structure MaviModuleState where
  importTimeSec : ℚ

/-- `HOUR_SECONDS` class attribute. -/
def HOUR_SECONDS : Nat := 3600

/-- Default `start_time`: `int((time.time() - HOUR_SECONDS*24*7) * 1000)`
evaluated at import time — one week before import, in milliseconds. -/
def defaultStartTime (m : MaviModuleState) : ℤ :=
  pyInt ((m.importTimeSec - HOUR_SECONDS * 24 * 7) * 1000)

/-- Default `end_time`: `int(time.time() * 1000)` evaluated at import time. -/
def defaultEndTime (m : MaviModuleState) : ℤ :=
  pyInt (m.importTimeSec * 1000)

/-- The query parameters `search_video_metadata` sends. -/
structure SearchParams where
  startTime : ℤ
  endTime : ℤ
  videoStatus : String
  page : ℤ
  pageSize : ℤ

/-- The params dict built by a call of `search_video_metadata` entered at
wall-clock time `callTimeSec`, with `none` for an omitted argument.  Python
evaluates default-argument expressions only at function definition time, so
omitted arguments take the values captured in `MaviModuleState`; the
call-time clock is never consulted (it appears in no field). -/
def searchVideoMetadataParams (m : MaviModuleState) (_callTimeSec : ℚ)
    (startTimeArg endTimeArg : Option ℤ) (videoStatus : String)
    (page pageSize : ℤ) : SearchParams :=
  { startTime := startTimeArg.getD (defaultStartTime m),
    endTime := endTimeArg.getD (defaultEndTime m),
    videoStatus := videoStatus, page := page, pageSize := pageSize }

/-! ## `pymavi/client.py` `chat_with_videos` -/

/-- One HTTP request as issued by `_make_request` via `session.request`:
`streamTransport` is the `requests` `stream=` flag — `_make_request` never
passes it, so the response is always fully buffered. -/
structure HttpRequest where
  method : String
  endpoint : String
  jsonBody : Json
  streamTransport : Bool

/-- The JSON body `chat_with_videos` builds; the `stream` argument is
forwarded only as this body field. -/
def chatBody (videoNos : List String) (message : String) (history : List Json)
    (stream : Bool) : Json :=
  Json.obj [("videoNos".data, Json.arr (videoNos.map (fun v => Json.str v.data))),
            ("message".data, Json.str message.data),
            ("history".data, Json.arr history),
            ("stream".data, Json.bool stream)]

/-- The single request `chat_with_videos` makes:
`self._make_request("POST", "chat", json=data)` — a buffered POST for every
value of `stream`. -/
def chatWithVideosRequest (videoNos : List String) (message : String)
    (history : List Json) (stream : Bool) : HttpRequest :=
  { method := "POST", endpoint := "chat",
    jsonBody := chatBody videoNos message history stream,
    streamTransport := false }

/-- Outcome of `_make_request`: parsed JSON body on success, or the mapped
exception after `raise_for_status` (401 → `MaviAuthenticationError`, other
HTTP errors → `MaviAPIError`). -/
inductive ApiOutcome where
  | ok (body : Json)
  | authError
  | apiError (status : Nat)

/-- `_make_request` response handling on a received response: 4xx/5xx raise
(401 specially), otherwise the parsed body is returned as-is. -/
def makeRequestOutcome (status : Nat) (bodyParsed : Json) : ApiOutcome :=
  if 400 ≤ status then (if status = 401 then .authError else .apiError status)
  else .ok bodyParsed

/-- `chat_with_videos` end to end: the request it issues and, given the
transport's response, the value it returns.  No streaming decode exists on
this path; the parsed body is returned whole. -/
def chatWithVideos (videoNos : List String) (message : String)
    (history : List Json) (stream : Bool) (status : Nat) (bodyParsed : Json) :
    HttpRequest × ApiOutcome :=
  (chatWithVideosRequest videoNos message history stream,
   makeRequestOutcome status bodyParsed)

/-! ## Whitespace and `strip` lemmas -/

theorem dropWhile_eq_self_of_all {α : Type} {p : α → Bool} {l : List α}
    (h : ∀ c ∈ l, p c = false) : l.dropWhile p = l := by
  cases l with
  | nil => rfl
  | cons a t =>
    rw [List.dropWhile_cons_of_neg]
    simp [h a (by simp)]

theorem dropWhile_append_of_all {α : Type} {p : α → Bool} {w l : List α}
    (h : ∀ c ∈ w, p c = true) : (w ++ l).dropWhile p = l.dropWhile p := by
  induction w with
  | nil => rfl
  | cons a t ih =>
    rw [List.cons_append, List.dropWhile_cons_of_pos (h a (by simp))]
    exact ih (fun c hc => h c (by simp [hc]))

theorem pyStrip_eq_stripRight_dropWhile (l : List Char) :
    pyStrip l = stripRight (l.dropWhile pyWs) := rfl

theorem stripRight_eq_self_of_all {l : List Char} (h : ∀ c ∈ l, pyWs c = false) :
    stripRight l = l := by
  unfold stripRight
  rw [dropWhile_eq_self_of_all (fun c hc => h c (List.mem_reverse.mp hc)), List.reverse_reverse]

theorem pyStrip_eq_self_of_all {l : List Char} (h : ∀ c ∈ l, pyWs c = false) :
    pyStrip l = l := by
  rw [pyStrip_eq_stripRight_dropWhile, dropWhile_eq_self_of_all h,
    stripRight_eq_self_of_all h]

theorem stripRight_append_ws {l w : List Char} (h : ∀ c ∈ w, pyWs c = true) :
    stripRight (l ++ w) = stripRight l := by
  unfold stripRight
  rw [List.reverse_append, dropWhile_append_of_all (fun c hc => h c (List.mem_reverse.mp hc))]

theorem stripRight_append_of_getLast {x v : List Char}
    (h : ∀ c, x.getLast? = some c → pyWs c = false) :
    stripRight (x ++ v) = x ++ stripRight v := by
  unfold stripRight
  rw [List.reverse_append, List.dropWhile_append]
  by_cases he : (v.reverse.dropWhile pyWs).isEmpty
  · rw [if_pos he]
    rw [List.isEmpty_iff] at he
    rw [he, List.reverse_nil, List.append_nil]
    cases hx : x.reverse with
    | nil =>
      have hx0 : x = [] := by
        have := congrArg List.reverse hx
        simpa using this
      simp [hx0]
    | cons b u =>
      have hb : pyWs b = false := by
        refine h b ?_
        rw [← List.head?_reverse, hx]
        rfl
      rw [List.dropWhile_cons_of_neg (by simp [hb]), ← hx, List.reverse_reverse]
  · rw [if_neg he, List.reverse_append, List.reverse_reverse]

theorem stripRight_decomposition (x : List Char) :
    ∃ w, x = stripRight x ++ w ∧ ∀ c ∈ w, pyWs c = true := by
  refine ⟨(x.reverse.takeWhile pyWs).reverse, ?_, ?_⟩
  · conv_lhs => rw [← List.reverse_reverse x, ← List.takeWhile_append_dropWhile (p := pyWs) (l := x.reverse)]
    rw [List.reverse_append]
    rfl
  · intro c hc
    rw [List.mem_reverse] at hc
    have := List.all_takeWhile (p := pyWs) (l := x.reverse)
    exact (List.all_eq_true.mp this) c hc

theorem pyStrip_ws_append {w l : List Char} (h : ∀ c ∈ w, pyWs c = true) :
    pyStrip (w ++ l) = pyStrip l := by
  rw [pyStrip_eq_stripRight_dropWhile, pyStrip_eq_stripRight_dropWhile,
    dropWhile_append_of_all h]

theorem pyStrip_append_ws {l w : List Char} (h : ∀ c ∈ w, pyWs c = true) :
    pyStrip (l ++ w) = pyStrip l := by
  rw [pyStrip_eq_stripRight_dropWhile, pyStrip_eq_stripRight_dropWhile,
    List.dropWhile_append]
  by_cases he : (l.dropWhile pyWs).isEmpty
  · rw [if_pos he]
    rw [List.isEmpty_iff] at he
    have hw : w.dropWhile pyWs = [] := by
      have := dropWhile_append_of_all (l := ([] : List Char)) h
      simpa using this
    rw [he, hw]
  · rw [if_neg he, stripRight_append_ws h]

theorem pyStrip_stripRight (x : List Char) : pyStrip (stripRight x) = pyStrip x := by
  obtain ⟨w, hw, hws⟩ := stripRight_decomposition x
  conv_rhs => rw [hw]
  rw [pyStrip_append_ws hws]

theorem pyStrip_eq_self_of_ends {l : List Char}
    (hh : ∀ c, l.head? = some c → pyWs c = false)
    (hl : ∀ c, l.getLast? = some c → pyWs c = false) : pyStrip l = l := by
  cases l with
  | nil => rfl
  | cons a t =>
    have ha : pyWs a = false := hh a rfl
    rw [pyStrip_eq_stripRight_dropWhile, List.dropWhile_cons_of_neg (by simp [ha])]
    have := stripRight_append_of_getLast (x := a :: t) (v := []) hl
    simpa [stripRight] using this

/-! ## UTF-8 round trip -/

theorem utf8DecodeChar_encodeChar (c : Char) (bs : List Nat) :
    utf8DecodeChar (utf8EncodeChar c ++ bs) = some (c, bs) := by
  have hv : c.toNat < 0xD800 ∨ (0xDFFF < c.toNat ∧ c.toNat < 0x110000) := c.valid
  by_cases h1 : c.toNat < 0x80
  · rw [utf8EncodeChar, if_pos h1, List.singleton_append]
    simp only [utf8DecodeChar]
    rw [if_pos h1, Char.ofNat_toNat]
  by_cases h2 : c.toNat < 0x800
  · rw [utf8EncodeChar, if_neg h1, if_pos h2]
    simp only [List.cons_append, List.nil_append, utf8DecodeChar]
    have c1 : ¬ (0xC0 + c.toNat / 64 < 0x80) := by omega
    have c2 : ¬ (0xC0 + c.toNat / 64 < 0xC2) := by omega
    have c3 : 0xC0 + c.toNat / 64 ≤ 0xDF := by omega
    have c4 : 0x80 ≤ 0x80 + c.toNat % 64 ∧ 0x80 + c.toNat % 64 ≤ 0xBF := by omega
    rw [if_neg c1, if_neg c2, if_pos c3, if_pos c4]
    have hval : (0xC0 + c.toNat / 64 - 0xC0) * 64 + (0x80 + c.toNat % 64 - 0x80) = c.toNat := by
      omega
    rw [hval, Char.ofNat_toNat]
  by_cases h3 : c.toNat < 0x10000
  · rw [utf8EncodeChar, if_neg h1, if_neg h2, if_pos h3]
    simp only [List.cons_append, List.nil_append, utf8DecodeChar]
    have c1 : ¬ (0xE0 + c.toNat / 4096 < 0x80) := by omega
    have c2 : ¬ (0xE0 + c.toNat / 4096 < 0xC2) := by omega
    have c3 : ¬ (0xE0 + c.toNat / 4096 ≤ 0xDF) := by omega
    have c4 : 0xE0 + c.toNat / 4096 ≤ 0xEF := by omega
    have c5 : ((if 0xE0 + c.toNat / 4096 = 0xE0 then (0xA0 : Nat) else 0x80) ≤
          0x80 + c.toNat / 64 % 64 ∧
        0x80 + c.toNat / 64 % 64 ≤ (if 0xE0 + c.toNat / 4096 = 0xED then (0x9F : Nat) else 0xBF))
        ∧ (0x80 ≤ 0x80 + c.toNat % 64 ∧ 0x80 + c.toNat % 64 ≤ 0xBF) := by
      refine ⟨⟨?_, ?_⟩, by omega, by omega⟩ <;> split_ifs <;>
        rcases hv with hv | hv <;> omega
    rw [if_neg c1, if_neg c2, if_neg c3, if_pos c4, if_pos c5]
    have hval : (0xE0 + c.toNat / 4096 - 0xE0) * 4096 + (0x80 + c.toNat / 64 % 64 - 0x80) * 64 +
        (0x80 + c.toNat % 64 - 0x80) = c.toNat := by omega
    rw [hval, Char.ofNat_toNat]
  · rw [utf8EncodeChar, if_neg h1, if_neg h2, if_neg h3]
    simp only [List.cons_append, List.nil_append, utf8DecodeChar]
    have hc4 : c.toNat < 0x110000 := by rcases hv with hv | hv <;> omega
    have c1 : ¬ (0xF0 + c.toNat / 262144 < 0x80) := by omega
    have c2 : ¬ (0xF0 + c.toNat / 262144 < 0xC2) := by omega
    have c3 : ¬ (0xF0 + c.toNat / 262144 ≤ 0xDF) := by omega
    have c4 : ¬ (0xF0 + c.toNat / 262144 ≤ 0xEF) := by omega
    have c5 : 0xF0 + c.toNat / 262144 ≤ 0xF4 := by omega
    have c6 : ((if 0xF0 + c.toNat / 262144 = 0xF0 then (0x90 : Nat) else 0x80) ≤
          0x80 + c.toNat / 4096 % 64 ∧
        0x80 + c.toNat / 4096 % 64 ≤
          (if 0xF0 + c.toNat / 262144 = 0xF4 then (0x8F : Nat) else 0xBF))
        ∧ (0x80 ≤ 0x80 + c.toNat / 64 % 64 ∧ 0x80 + c.toNat / 64 % 64 ≤ 0xBF)
        ∧ (0x80 ≤ 0x80 + c.toNat % 64 ∧ 0x80 + c.toNat % 64 ≤ 0xBF) := by
      refine ⟨⟨?_, ?_⟩, ⟨by omega, by omega⟩, by omega, by omega⟩ <;> split_ifs <;> omega
    rw [if_neg c1, if_neg c2, if_neg c3, if_neg c4, if_pos c5, if_pos c6]
    have hval : (0xF0 + c.toNat / 262144 - 0xF0) * 262144 +
        (0x80 + c.toNat / 4096 % 64 - 0x80) * 4096 +
        (0x80 + c.toNat / 64 % 64 - 0x80) * 64 + (0x80 + c.toNat % 64 - 0x80) = c.toNat := by
      omega
    rw [hval, Char.ofNat_toNat]

theorem utf8EncodeChar_ne_nil (c : Char) : utf8EncodeChar c ≠ [] := by
  unfold utf8EncodeChar
  split_ifs <;> simp

theorem utf8DecodeLoop_encodeChar (c : Char) (g : Nat) (bs : List Nat) :
    utf8DecodeLoop (g + 1) (utf8EncodeChar c ++ bs) =
      (utf8DecodeLoop g bs).map (fun cs => c :: cs) := by
  have hd := utf8DecodeChar_encodeChar c bs
  cases he : utf8EncodeChar c with
  | nil => exact absurd he (utf8EncodeChar_ne_nil c)
  | cons b bt =>
    rw [he] at hd
    rw [List.cons_append]
    simp only [utf8DecodeLoop]
    rw [List.cons_append] at hd
    rw [hd]

theorem utf8DecodeLoop_encode (l : List Char) :
    ∀ f, l.length ≤ f → utf8DecodeLoop f (utf8Encode l) = some l := by
  induction l with
  | nil => intro f _; cases f <;> rfl
  | cons c t ih =>
    intro f hf
    cases f with
    | zero => simp at hf
    | succ g =>
      show utf8DecodeLoop (g + 1) (utf8EncodeChar c ++ utf8Encode t) = _
      rw [utf8DecodeLoop_encodeChar, ih g (by simpa using hf)]
      rfl

theorem length_le_utf8Encode_length (l : List Char) : l.length ≤ (utf8Encode l).length := by
  induction l with
  | nil => simp [utf8Encode]
  | cons c t ih =>
    show t.length + 1 ≤ (utf8EncodeChar c ++ utf8Encode t).length
    rw [List.length_append]
    have : 1 ≤ (utf8EncodeChar c).length := by
      cases he : utf8EncodeChar c with
      | nil => exact absurd he (utf8EncodeChar_ne_nil c)
      | cons b bt => simp
    omega

theorem utf8Encode_decode (l : List Char) : utf8Decode (utf8Encode l) = some l :=
  utf8DecodeLoop_encode l _ (length_le_utf8Encode_length l)

theorem utf8Encode_ne_nil (c : Char) (t : List Char) : utf8Encode (c :: t) ≠ [] := by
  show utf8EncodeChar c ++ utf8Encode t ≠ []
  simp [utf8EncodeChar_ne_nil c]

/-! ## The string parser inverts JSON string escaping -/

theorem hexVal_hexDigit {n : Nat} (h : n < 16) : hexVal (hexDigit n) = some n := by
  interval_cases n <;> rfl

theorem parseStringBody_escape (cs : List Char) :
    ∀ (f : Nat) (rest : List Char), (jsonEscapeList cs).length + 1 ≤ f →
      parseStringBody f (jsonEscapeList cs ++ '"' :: rest) = some (cs, rest) := by
  induction cs with
  | nil =>
    intro f rest hf
    obtain ⟨g, rfl⟩ : ∃ g, f = g + 1 := ⟨f - 1, by omega⟩
    show parseStringBody (g + 1) ('"' :: rest) = _
    simp [parseStringBody]
  | cons c cs ih =>
    intro f rest hf
    have hsplit : jsonEscapeList (c :: cs) ++ '"' :: rest =
        escapeChar c ++ (jsonEscapeList cs ++ '"' :: rest) := by
      show (escapeChar c ++ jsonEscapeList cs) ++ '"' :: rest = _
      rw [List.append_assoc]
    have hlen : (jsonEscapeList (c :: cs)).length =
        (escapeChar c).length + (jsonEscapeList cs).length := by
      show (escapeChar c ++ jsonEscapeList cs).length = _
      rw [List.length_append]
    rw [hsplit]
    by_cases hq : c = '"'
    · subst hq
      rw [show escapeChar '"' = ['\\', '"'] from rfl] at hlen
      obtain ⟨g, rfl⟩ : ∃ g, f = g + 1 := ⟨f - 1, by omega⟩
      show consFst '"' (parseStringBody g (jsonEscapeList cs ++ '"' :: rest)) = _
      rw [ih g rest (by simp at hlen; omega)]
      rfl
    by_cases hb : c = '\\'
    · subst hb
      rw [show escapeChar '\\' = ['\\', '\\'] from rfl] at hlen
      obtain ⟨g, rfl⟩ : ∃ g, f = g + 1 := ⟨f - 1, by omega⟩
      show consFst '\\' (parseStringBody g (jsonEscapeList cs ++ '"' :: rest)) = _
      rw [ih g rest (by simp at hlen; omega)]
      rfl
    by_cases hc : c.toNat < 0x20
    · have he : escapeChar c =
          ['\\', 'u', '0', '0', hexDigit (c.toNat / 16), hexDigit (c.toNat % 16)] := by
        rw [escapeChar, if_neg hq, if_neg hb, if_pos hc]
      rw [he] at hlen ⊢
      obtain ⟨g, rfl⟩ : ∃ g, f = g + 1 := ⟨f - 1, by omega⟩
      have hps : parseEsc ('u' :: '0' :: '0' :: hexDigit (c.toNat / 16) ::
          hexDigit (c.toNat % 16) :: (jsonEscapeList cs ++ '"' :: rest)) =
          some (c, jsonEscapeList cs ++ '"' :: rest) := by
        have h0 : hexVal '0' = some 0 := rfl
        have hx1 : hexVal (hexDigit (c.toNat / 16)) = some (c.toNat / 16) :=
          hexVal_hexDigit (by omega)
        have hx2 : hexVal (hexDigit (c.toNat % 16)) = some (c.toNat % 16) :=
          hexVal_hexDigit (by omega)
        simp only [parseEsc, parseHex4, h0, hx1, hx2, if_true]
        rw [if_neg (by omega), if_neg (by omega)]
        have hchar : ∀ X : Nat, X = c.toNat →
            (some (Char.ofNat X, jsonEscapeList cs ++ '"' :: rest) :
              Option (Char × List Char)) = some (c, jsonEscapeList cs ++ '"' :: rest) := by
          intro X hX
          rw [hX, Char.ofNat_toNat]
        exact hchar _ (by omega)
      show parseStringBody (g + 1) ('\\' :: 'u' :: '0' :: '0' :: hexDigit (c.toNat / 16) ::
        hexDigit (c.toNat % 16) :: (jsonEscapeList cs ++ '"' :: rest)) = _
      simp only [parseStringBody, if_true]
      rw [if_neg (by decide), hps]
      show consFst c (parseStringBody g (jsonEscapeList cs ++ '"' :: rest)) = _
      rw [ih g rest (by simp at hlen; omega)]
      rfl
    · have he : escapeChar c = [c] := by
        rw [escapeChar, if_neg hq, if_neg hb, if_neg hc]
      rw [he] at hlen ⊢
      obtain ⟨g, rfl⟩ : ∃ g, f = g + 1 := ⟨f - 1, by omega⟩
      show parseStringBody (g + 1) (c :: (jsonEscapeList cs ++ '"' :: rest)) = _
      simp only [parseStringBody]
      rw [if_neg hq, if_neg hb, if_neg hc]
      rw [ih g rest (by simp at hlen; omega)]
      rfl

/-- The round trip at the canonical fuel the call sites pass. -/
theorem parseStringBody_canonical (cs rest : List Char) :
    parseStringBody ((jsonEscapeList cs ++ '"' :: rest).length + 1)
      (jsonEscapeList cs ++ '"' :: rest) = some (cs, rest) := by
  refine parseStringBody_escape cs _ rest ?_
  rw [List.length_append]
  simp

theorem parseEsc_ctrl (c : Char) (hc : c.toNat < 0x20) (tail : List Char) :
    parseEsc ('u' :: '0' :: '0' :: hexDigit (c.toNat / 16) :: hexDigit (c.toNat % 16) :: tail) =
      some (c, tail) := by
  have h0 : hexVal '0' = some 0 := rfl
  have hx1 : hexVal (hexDigit (c.toNat / 16)) = some (c.toNat / 16) := hexVal_hexDigit (by omega)
  have hx2 : hexVal (hexDigit (c.toNat % 16)) = some (c.toNat % 16) := hexVal_hexDigit (by omega)
  simp only [parseEsc, parseHex4, h0, hx1, hx2, if_true]
  rw [if_neg (by omega), if_neg (by omega)]
  have hchar : ∀ X : Nat, X = c.toNat →
      (some (Char.ofNat X, tail) : Option (Char × List Char)) = some (c, tail) := by
    intro X hX
    rw [hX, Char.ofNat_toNat]
  exact hchar _ (by omega)

/-- A strict prefix of an escaped string body (no closing quote reached) never
parses: the parse either runs out of characters or stops inside an escape. -/
theorem parseStringBody_escape_partial (cs : List Char) :
    ∀ (j f : Nat), parseStringBody f ((jsonEscapeList cs).take j) = none := by
  induction cs with
  | nil =>
    intro j f
    rw [show jsonEscapeList [] = [] from rfl, List.take_nil]
    cases f <;> rfl
  | cons c cs ih =>
    intro j f
    by_cases hq : c = '"'
    · subst hq
      have hform : jsonEscapeList ('"' :: cs) = '\\' :: '"' :: jsonEscapeList cs := rfl
      rw [hform]
      match j with
      | 0 => cases f <;> rfl
      | 1 => cases f <;> rfl
      | j + 2 =>
        rw [List.take_succ_cons, List.take_succ_cons]
        cases f with
        | zero => rfl
        | succ g =>
          show consFst '"' (parseStringBody g ((jsonEscapeList cs).take j)) = none
          rw [ih j g]
          rfl
    by_cases hb : c = '\\'
    · subst hb
      have hform : jsonEscapeList ('\\' :: cs) = '\\' :: '\\' :: jsonEscapeList cs := rfl
      rw [hform]
      match j with
      | 0 => cases f <;> rfl
      | 1 => cases f <;> rfl
      | j + 2 =>
        rw [List.take_succ_cons, List.take_succ_cons]
        cases f with
        | zero => rfl
        | succ g =>
          show consFst '\\' (parseStringBody g ((jsonEscapeList cs).take j)) = none
          rw [ih j g]
          rfl
    by_cases hc : c.toNat < 0x20
    · have hform : jsonEscapeList (c :: cs) = '\\' :: 'u' :: '0' :: '0' ::
          hexDigit (c.toNat / 16) :: hexDigit (c.toNat % 16) :: jsonEscapeList cs := by
        show escapeChar c ++ jsonEscapeList cs = _
        rw [escapeChar, if_neg hq, if_neg hb, if_pos hc]
        rfl
      rw [hform]
      match j with
      | 0 => cases f <;> rfl
      | 1 => cases f <;> rfl
      | 2 => cases f <;> rfl
      | 3 => cases f <;> rfl
      | 4 => cases f <;> rfl
      | 5 => cases f <;> rfl
      | j + 6 =>
        rw [List.take_succ_cons, List.take_succ_cons, List.take_succ_cons,
          List.take_succ_cons, List.take_succ_cons, List.take_succ_cons]
        cases f with
        | zero => rfl
        | succ g =>
          simp only [parseStringBody, if_true]
          rw [if_neg (by decide), parseEsc_ctrl c hc]
          show consFst c (parseStringBody g ((jsonEscapeList cs).take j)) = none
          rw [ih j g]
          rfl
    · have hform : jsonEscapeList (c :: cs) = c :: jsonEscapeList cs := by
        show escapeChar c ++ jsonEscapeList cs = _
        rw [escapeChar, if_neg hq, if_neg hb, if_neg hc]
        rfl
      rw [hform]
      match j with
      | 0 => cases f <;> rfl
      | j + 1 =>
        rw [List.take_succ_cons]
        cases f with
        | zero => rfl
        | succ g =>
          simp only [parseStringBody]
          rw [if_neg hq, if_neg hb, if_neg hc, ih j g]
          rfl

/-! ## Parsing serialized envelopes -/

theorem envChars_append_eq (p : String) (r : List Char) : envChars p ++ r =
    lbrace :: '"' :: (jsonEscapeList ['c','o','d','e'] ++ '"' :: ':' :: '"' ::
      (jsonEscapeList ['0','0','0','0'] ++ '"' :: ',' :: '"' ::
        (jsonEscapeList ['m','s','g'] ++ '"' :: ':' :: '"' ::
          (jsonEscapeList ([] : List Char) ++ '"' :: ',' :: '"' ::
            (jsonEscapeList ['d','a','t','a'] ++ '"' :: ':' :: lbrace :: '"' ::
              (jsonEscapeList ['m','s','g'] ++ '"' :: ':' :: '"' ::
                (jsonEscapeList p.data ++ '"' :: rbrace :: rbrace :: r))))))) := by
  show (envHead ++ jsonEscapeList p.data ++ envTail) ++ r = _
  simp [envHead, envTail, jsonEscapeList, escapeChar, List.append_assoc]
  decide

theorem lbrace_ne_quote : ¬ (lbrace = '"') := by decide

theorem quote_ne_rbrace : ¬ (('"' : Char) = rbrace) := by decide

theorem rbrace_ne_comma : ¬ (rbrace = ',') := by decide

theorem quote_eq_quote : (('"' : Char) = '"') = True := by simp

theorem lbrace_eq_lbrace : (lbrace = lbrace) = True := by simp

theorem rbrace_eq_rbrace : (rbrace = rbrace) = True := by simp

theorem comma_eq_comma : ((',' : Char) = ',') = True := by simp

theorem skipWs_quote (l : List Char) : skipWs ('"' :: l) = '"' :: l := by
  rw [skipWs, List.dropWhile_cons_of_neg]
  decide

theorem skipWs_colon (l : List Char) : skipWs (':' :: l) = ':' :: l := by
  rw [skipWs, List.dropWhile_cons_of_neg]
  decide

theorem skipWs_comma (l : List Char) : skipWs (',' :: l) = ',' :: l := by
  rw [skipWs, List.dropWhile_cons_of_neg]
  decide

theorem skipWs_lbrace (l : List Char) : skipWs (lbrace :: l) = lbrace :: l := by
  rw [skipWs, List.dropWhile_cons_of_neg]
  decide

theorem skipWs_rbrace (l : List Char) : skipWs (rbrace :: l) = rbrace :: l := by
  rw [skipWs, List.dropWhile_cons_of_neg]
  decide

/-- Unfolding equation for `parseValue` that fires only on a successor fuel
and a cons-shaped input (the generated equation unfolds on symbolic
arguments, which makes rewriting under binders explode). -/
theorem parseValue_cons (fuel : Nat) (c : Char) (rest : List Char) :
    parseValue (fuel + 1) (c :: rest) =
    (if c = '"' then
      (parseStringBody (rest.length + 1) rest).map (fun p => (Json.str p.1, p.2))
    else if c = lbrace then
      match skipWs rest with
      | [] => none
      | d :: r1 =>
        if d = rbrace then some (Json.obj [], r1)
        else (parseMembers fuel (d :: r1)).map (fun p => (Json.obj p.1, p.2))
    else if c = '[' then
      match skipWs rest with
      | [] => none
      | d :: r1 =>
        if d = ']' then some (Json.arr [], r1)
        else (parseElements fuel (d :: r1)).map (fun p => (Json.arr p.1, p.2))
    else if c = 'n' then
      match rest with
      | 'u' :: 'l' :: 'l' :: r => some (Json.null, r)
      | _ => none
    else if c = 't' then
      match rest with
      | 'r' :: 'u' :: 'e' :: r => some (Json.bool true, r)
      | _ => none
    else if c = 'f' then
      match rest with
      | 'a' :: 'l' :: 's' :: 'e' :: r => some (Json.bool false, r)
      | _ => none
    else
      match parseNumberLex (c :: rest) with
      | some (lex, r) => some (Json.num lex, r)
      | none =>
        if c = 'N' then
          match rest with
          | 'a' :: 'N' :: r => some (Json.num ['N', 'a', 'N'], r)
          | _ => none
        else if c = 'I' then
          match rest with
          | 'n' :: 'f' :: 'i' :: 'n' :: 'i' :: 't' :: 'y' :: r =>
            some (Json.num ['I', 'n', 'f', 'i', 'n', 'i', 't', 'y'], r)
          | _ => none
        else if c = '-' then
          match rest with
          | 'I' :: 'n' :: 'f' :: 'i' :: 'n' :: 'i' :: 't' :: 'y' :: r =>
            some (Json.num ['-', 'I', 'n', 'f', 'i', 'n', 'i', 't', 'y'], r)
          | _ => none
        else none) := rfl

/-- Unfolding equation for `parseMembers`, cons-shaped arguments only. -/
theorem parseMembers_cons (fuel : Nat) (c : Char) (r : List Char) :
    parseMembers (fuel + 1) (c :: r) =
    (if c = '"' then
      match parseStringBody (r.length + 1) r with
      | none => none
      | some (key, r2) =>
        match skipWs r2 with
        | [] => none
        | d :: r3 =>
          if d = ':' then
            match parseValue fuel (skipWs r3) with
            | none => none
            | some (v, r4) =>
              match skipWs r4 with
              | [] => none
              | e :: r5 =>
                if e = ',' then
                  (parseMembers fuel (skipWs r5)).map (fun p => ((key, v) :: p.1, p.2))
                else if e = rbrace then some ([(key, v)], r5)
                else none
          else none
    else none) := rfl

theorem parseValue_env (p : String) (r : List Char) (f : Nat) :
    parseValue (f + 7) (envChars p ++ r) = some (envVal p, r) := by
  rw [envChars_append_eq]
  simp only [parseValue_cons, parseMembers_cons, parseStringBody_canonical, skipWs_quote,
    skipWs_colon, skipWs_comma, skipWs_lbrace, skipWs_rbrace, if_true, if_false,
    ite_true, ite_false, Option.map_some', lbrace_ne_quote, quote_ne_rbrace,
    rbrace_ne_comma, quote_eq_quote, lbrace_eq_lbrace, rbrace_eq_rbrace, comma_eq_comma]
  rfl


theorem envHead_length : envHead.length = 39 := by decide

theorem envChars_length (p : String) :
    (envChars p).length = 42 + (jsonEscapeList p.data).length := by
  rw [envChars, List.length_append, List.length_append, envHead_length]
  have : envTail.length = 3 := by decide
  omega

theorem rawDecode_env (p : String) (r : List Char) :
    rawDecode (envChars p ++ r) = some (envVal p, r) := by
  rw [rawDecode]
  have h : (envChars p ++ r).length + 1 = ((envChars p ++ r).length + 1 - 7) + 7 := by
    rw [List.length_append, envChars_length]
    omega
  rw [h, parseValue_env]

theorem errEnvChars_append_eq (cd ms : String) (r : List Char) : errEnvChars cd ms ++ r =
    lbrace :: '"' :: (jsonEscapeList ['c','o','d','e'] ++ '"' :: ':' :: '"' ::
      (jsonEscapeList cd.data ++ '"' :: ',' :: '"' ::
        (jsonEscapeList ['m','s','g'] ++ '"' :: ':' :: '"' ::
          (jsonEscapeList ms.data ++ '"' :: rbrace :: r)))) := by
  show (errEnvHead ++ jsonEscapeList cd.data ++ errEnvMid ++ jsonEscapeList ms.data ++
    errEnvTail) ++ r = _
  simp [errEnvHead, errEnvMid, errEnvTail, jsonEscapeList, escapeChar, List.append_assoc]
  decide

theorem parseValue_errEnv (cd ms : String) (r : List Char) (f : Nat) :
    parseValue (f + 5) (errEnvChars cd ms ++ r) = some (errEnvVal cd ms, r) := by
  rw [errEnvChars_append_eq]
  simp only [parseValue_cons, parseMembers_cons, parseStringBody_canonical, skipWs_quote,
    skipWs_colon, skipWs_comma, skipWs_lbrace, skipWs_rbrace, if_true, if_false,
    ite_true, ite_false, Option.map_some', lbrace_ne_quote, quote_ne_rbrace,
    rbrace_ne_comma, quote_eq_quote, lbrace_eq_lbrace, rbrace_eq_rbrace, comma_eq_comma]
  rfl

theorem errEnvHead_length : errEnvHead.length = 9 := by decide

theorem errEnvChars_length (cd ms : String) : (errEnvChars cd ms).length =
    20 + (jsonEscapeList cd.data).length + (jsonEscapeList ms.data).length := by
  rw [errEnvChars, List.length_append, List.length_append, List.length_append,
    List.length_append, errEnvHead_length]
  have h1 : errEnvMid.length = 9 := by decide
  have h2 : errEnvTail.length = 2 := by decide
  omega

theorem rawDecode_errEnv (cd ms : String) (r : List Char) :
    rawDecode (errEnvChars cd ms ++ r) = some (errEnvVal cd ms, r) := by
  rw [rawDecode]
  have h : (errEnvChars cd ms ++ r).length + 1 =
      ((errEnvChars cd ms ++ r).length + 1 - 5) + 5 := by
    rw [List.length_append, errEnvChars_length]
    omega
  rw [h, parseValue_errEnv]


/-! ## No strict prefix of an envelope parses -/

theorem envHead_append_eq (X : List Char) : envHead ++ X =
    lbrace :: '"' :: (jsonEscapeList ['c','o','d','e'] ++ '"' :: ':' :: '"' ::
      (jsonEscapeList ['0','0','0','0'] ++ '"' :: ',' :: '"' ::
        (jsonEscapeList ['m','s','g'] ++ '"' :: ':' :: '"' ::
          (jsonEscapeList ([] : List Char) ++ '"' :: ',' :: '"' ::
            (jsonEscapeList ['d','a','t','a'] ++ '"' :: ':' :: lbrace :: '"' ::
              (jsonEscapeList ['m','s','g'] ++ '"' :: ':' :: '"' :: X)))))) := by
  simp [envHead, jsonEscapeList, escapeChar, List.append_assoc]
  decide

theorem skipWs_nil : skipWs [] = ([] : List Char) := rfl

theorem rawDecode_env_mid (p : String) (j : Nat) :
    rawDecode (envHead ++ (jsonEscapeList p.data).take j) = none := by
  rw [rawDecode]
  have h : (envHead ++ (jsonEscapeList p.data).take j).length + 1 =
      ((envHead ++ (jsonEscapeList p.data).take j).length + 1 - 7) + 7 := by
    rw [List.length_append, envHead_length]
    omega
  rw [h, envHead_append_eq]
  simp only [parseValue_cons, parseMembers_cons, parseStringBody_canonical,
    parseStringBody_escape_partial, skipWs_quote, skipWs_colon, skipWs_comma,
    skipWs_lbrace, skipWs_rbrace, skipWs_nil, if_true, if_false, ite_true, ite_false,
    Option.map_some', Option.map_none', lbrace_ne_quote, quote_ne_rbrace,
    rbrace_ne_comma, quote_eq_quote, lbrace_eq_lbrace, rbrace_eq_rbrace, comma_eq_comma]

theorem rawDecode_env_tail1 (p : String) :
    rawDecode (envHead ++ (jsonEscapeList p.data ++ ['"'])) = none := by
  rw [rawDecode]
  have h : (envHead ++ (jsonEscapeList p.data ++ ['"'])).length + 1 =
      ((envHead ++ (jsonEscapeList p.data ++ ['"'])).length + 1 - 7) + 7 := by
    rw [List.length_append, envHead_length]
    omega
  rw [h, envHead_append_eq]
  simp only [parseValue_cons, parseMembers_cons, parseStringBody_canonical,
    skipWs_quote, skipWs_colon, skipWs_comma, skipWs_lbrace, skipWs_rbrace, skipWs_nil,
    if_true, if_false, ite_true, ite_false, Option.map_some', Option.map_none',
    lbrace_ne_quote, quote_ne_rbrace, rbrace_ne_comma, quote_eq_quote,
    lbrace_eq_lbrace, rbrace_eq_rbrace, comma_eq_comma]

theorem rawDecode_env_tail2 (p : String) :
    rawDecode (envHead ++ (jsonEscapeList p.data ++ ['"', rbrace])) = none := by
  rw [rawDecode]
  have h : (envHead ++ (jsonEscapeList p.data ++ ['"', rbrace])).length + 1 =
      ((envHead ++ (jsonEscapeList p.data ++ ['"', rbrace])).length + 1 - 7) + 7 := by
    rw [List.length_append, envHead_length]
    omega
  rw [h, envHead_append_eq]
  simp only [parseValue_cons, parseMembers_cons, parseStringBody_canonical,
    skipWs_quote, skipWs_colon, skipWs_comma, skipWs_lbrace, skipWs_rbrace, skipWs_nil,
    if_true, if_false, ite_true, ite_false, Option.map_some', Option.map_none',
    lbrace_ne_quote, quote_ne_rbrace, rbrace_ne_comma, quote_eq_quote,
    lbrace_eq_lbrace, rbrace_eq_rbrace, comma_eq_comma]

/-- No strict prefix of a serialized success envelope parses as a JSON value. -/
theorem rawDecode_env_take (p : String) (k : Nat) (hk : k < (envChars p).length) :
    rawDecode ((envChars p).take k) = none := by
  by_cases h39 : k ≤ 39
  · have he : (envChars p).take k = envHead.take k := by
      rw [envChars]
      have hk39 : k ≤ envHead.length := by
        rw [envHead_length]
        omega
      exact List.take_append_of_le_length hk39
    rw [he]
    interval_cases k <;> rfl
  · obtain ⟨j, rfl⟩ : ∃ j, k = 39 + j := ⟨k - 39, by omega⟩
    have he : (envChars p).take (39 + j) =
        envHead ++ (jsonEscapeList p.data ++ envTail).take j := by
      rw [envChars, show (39 : Nat) = envHead.length from by rw [envHead_length]]
      exact List.take_append j
    rw [he]
    by_cases hj : j ≤ (jsonEscapeList p.data).length
    · have ht : (jsonEscapeList p.data ++ envTail).take j = (jsonEscapeList p.data).take j :=
        List.take_append_of_le_length hj
      rw [ht]
      exact rawDecode_env_mid p j
    · rw [envChars_length] at hk
      have hj2 : j = (jsonEscapeList p.data).length + 1 ∨
          j = (jsonEscapeList p.data).length + 2 := by omega
      have ht : ∀ i, (jsonEscapeList p.data ++ envTail).take ((jsonEscapeList p.data).length + i) =
          jsonEscapeList p.data ++ envTail.take i := by
        intro i
        exact List.take_append i
      rcases hj2 with hj2 | hj2
      · rw [hj2, ht 1]
        rw [show envTail.take 1 = ['"'] from rfl]
        exact rawDecode_env_tail1 p
      · rw [hj2, ht 2]
        rw [show envTail.take 2 = ['"', rbrace] from rfl]
        exact rawDecode_env_tail2 p


/-! ## The parse loop on serialized envelope streams -/

theorem parseLoop_zero (buf : List Char) : parseLoop 0 buf = ([], .needMore buf) := rfl

theorem rawDecode_nil : rawDecode [] = none := rfl

theorem streamChars_cons (p : String) (tl : List String) :
    streamChars (p :: tl) = envChars p ++ streamChars tl := rfl

theorem streamChars_append (a b : List String) :
    streamChars (a ++ b) = streamChars a ++ streamChars b := by
  induction a with
  | nil => rfl
  | cons p tl ih =>
    rw [List.cons_append, streamChars_cons, streamChars_cons, ih, List.append_assoc]

theorem append_split {α : Type} {x y l1 l2 : List α} (h : x ++ y = l1 ++ l2)
    (hlen : l1.length ≤ x.length) : ∃ m, x = l1 ++ m ∧ m ++ y = l2 := by
  have h1 : x.take l1.length = l1 := by
    have h2 : (x ++ y).take l1.length = x.take l1.length :=
      List.take_append_of_le_length hlen
    rw [h] at h2
    rw [← h2, List.take_left]
  have hx : x = l1 ++ x.drop l1.length := by
    conv_lhs => rw [← List.take_append_drop l1.length x]
    rw [h1]
  refine ⟨x.drop l1.length, hx, ?_⟩
  have h3 : l1 ++ (x.drop l1.length ++ y) = l1 ++ l2 := by
    rw [← List.append_assoc, ← hx, h]
  exact (List.append_right_inj l1).mp h3

theorem envChars_length_pos (p : String) : 42 ≤ (envChars p).length := by
  rw [envChars_length]
  omega

theorem parseLoop_succ (fuel : Nat) (buf : List Char) :
    parseLoop (fuel + 1) buf =
    (match rawDecode buf with
    | none => ([], .needMore buf)
    | some (v, rest) =>
      match v with
      | Json.obj ms =>
        match objGet ms ("code".data) with
        | some (Json.str s) =>
          if s = "0000".data then
            match envPayload ms with
            | some pl =>
              ((pl :: (parseLoop fuel (pyStrip rest)).1), (parseLoop fuel (pyStrip rest)).2)
            | none => ([], .crashedLoop)
          else ([], .terminalError (Json.str s) ((objGet ms ("msg".data)).getD (Json.str [])))
        | some other =>
          ([], .terminalError other ((objGet ms ("msg".data)).getD (Json.str [])))
        | none =>
          ([], .terminalError (Json.str []) ((objGet ms ("msg".data)).getD (Json.str [])))
      | _ => ([], .crashedLoop)) := rfl

theorem parseLoop_stream (rs : List String) :
    ∀ (x y : List Char) (f : Nat),
      (∀ c ∈ streamChars rs, pyWs c = false) →
      x ++ y = streamChars rs → x.length < f →
      ∃ qs rs' b', rs = qs ++ rs' ∧
        parseLoop f x = (qs.map (fun p => Json.str p.data), LoopOut.needMore b') ∧
        b' ++ y = streamChars rs' ∧ stuckLen b' rs' ∧
        (∀ c ∈ streamChars rs', pyWs c = false) := by
  induction rs with
  | nil =>
    intro x y f hws hxy hf
    have hx : x = [] := (List.append_eq_nil.mp hxy).1
    subst hx
    obtain ⟨f1, rfl⟩ : ∃ f1, f = f1 + 1 := ⟨f - 1, by omega⟩
    exact ⟨[], [], [], rfl, rfl, by simpa using hxy, rfl, hws⟩
  | cons p tl ih =>
    intro x y f hws hxy hf
    rw [streamChars_cons] at hxy
    by_cases hlt : x.length < (envChars p).length
    · have hx : x = (envChars p).take x.length := by
        have h2 : (x ++ y).take x.length = x := List.take_left x y
        have h3 : (x ++ y).take x.length = (envChars p).take x.length := by
          rw [hxy]
          exact List.take_append_of_le_length (le_of_lt hlt)
        exact h2.symm.trans h3
      have hrd : rawDecode x = none := by
        conv_lhs => rw [hx]
        exact rawDecode_env_take p x.length hlt
      obtain ⟨f1, rfl⟩ : ∃ f1, f = f1 + 1 := ⟨f - 1, by omega⟩
      refine ⟨[], p :: tl, x, rfl, ?_, by rw [streamChars_cons]; exact hxy, hlt, hws⟩
      rw [parseLoop_succ, hrd]
      rfl
    · obtain ⟨x', hx, hx'y⟩ :=
        append_split hxy (show (envChars p).length ≤ x.length by omega)
      have hws' : ∀ c ∈ streamChars tl, pyWs c = false := by
        intro c hc
        exact hws c (by rw [streamChars_cons]; exact List.mem_append_right _ hc)
      have hwx' : ∀ c ∈ x', pyWs c = false := by
        intro c hc
        refine hws' c ?_
        rw [← hx'y]
        exact List.mem_append_left _ hc
      have hstrip : pyStrip x' = x' := pyStrip_eq_self_of_all hwx'
      obtain ⟨f1, rfl⟩ : ∃ f1, f = f1 + 1 := ⟨f - 1, by omega⟩
      have hlen : x.length = (envChars p).length + x'.length := by
        rw [hx, List.length_append]
      have hf1 : x'.length < f1 := by
        have := envChars_length_pos p
        omega
      obtain ⟨qs', rs', b', hqs, hpl, hb'y, hstuck, hws''⟩ := ih x' y f1 hws' hx'y hf1
      refine ⟨p :: qs', rs', b', by rw [hqs]; rfl, ?_, hb'y, hstuck, hws''⟩
      have hrd : rawDecode x = some (envVal p, x') := by
        rw [hx]
        exact rawDecode_env p x'
      rw [parseLoop_succ, hrd]
      show (Json.str p.data :: (parseLoop f1 (pyStrip x')).1,
        (parseLoop f1 (pyStrip x')).2) = _
      rw [hstrip, hpl]
      rfl


/-! ## The decoder over whole chunk sequences -/

theorem decodeFrom_nil (b : List Char) : decodeFrom b [] = ([], .ended) := rfl

theorem decodeFrom_cons (b : List Char) (ch : List Nat) (chs : List (List Nat)) :
    decodeFrom b (ch :: chs) =
    (match processChunk b ch with
    | (ys, .more b2) => (ys ++ (decodeFrom b2 chs).1, (decodeFrom b2 chs).2)
    | (ys, .terminalError cd m) => (ys, .errorReturn cd m)
    | (ys, .crashedChunk) => (ys, .crashed)) := rfl

theorem processChunk_empty (b : List Char) : processChunk b [] = ([], .more b) := rfl

theorem processChunk_invalid (b : List Char) (chunk : List Nat)
    (h : utf8Decode chunk = none) : processChunk b chunk = ([], .more b) := by
  have hne : chunk ≠ [] := by
    intro he
    rw [he] at h
    exact Option.noConfusion h
  unfold processChunk
  rw [if_neg hne, h]

theorem processChunk_utf8 (b : List Char) (c : List Char) (hc : c ≠ [])
    (hstrip : pyStrip c = c) (htag : dataTagAtFront (b ++ c) = false) :
    processChunk b (utf8Encode c) =
      (match parseLoop ((b ++ c).length + 1) (b ++ c) with
      | (ys, .needMore b3) => (ys, .more b3)
      | (ys, .terminalError cd m) => (ys, .terminalError cd m)
      | (ys, .crashedLoop) => (ys, .crashedChunk)) := by
  cases c with
  | nil => exact absurd rfl hc
  | cons ch ct =>
    have hne := utf8Encode_ne_nil ch ct
    simp only [processChunk, hne, utf8Encode_decode, hstrip, htag, if_false, ite_false,
      Bool.false_eq_true, if_true, ite_true]

theorem envHead_eq_cons :
    envHead = lbrace :: ("\"code\":\"0000\",\"msg\":\"\",\"data\":\x7b\"msg\":\"").data := by
  decide

theorem dataTagAtFront_lbrace (t : List Char) : dataTagAtFront (lbrace :: t) = false := rfl


/-- Main invariant: starting from a stuck buffer, decoding character-boundary
chunks whose concatenation completes a whitespace-free envelope stream yields
exactly the stream's payloads and ends normally. -/
theorem decodeFrom_stream (cs : List (List Char)) :
    ∀ (b : List Char) (rs : List String),
      (∀ c ∈ streamChars rs, pyWs c = false) →
      b ++ joinChars cs = streamChars rs → stuckLen b rs →
      decodeFrom b (cs.map utf8Encode) =
        (rs.map (fun p => Json.str p.data), StreamEnd.ended) := by
  induction cs with
  | nil =>
    intro b rs hws hb hstuck
    cases rs with
    | nil => rfl
    | cons q tl =>
      exfalso
      have hb' : b = streamChars (q :: tl) := by simpa [joinChars] using hb
      have h1 : (envChars q).length ≤ b.length := by
        rw [hb', streamChars_cons, List.length_append]
        omega
      have h2 : b.length < (envChars q).length := hstuck
      omega
  | cons c cs ih =>
    intro b rs hws hb hstuck
    have hbc : (b ++ c) ++ joinChars cs = streamChars rs := by
      rw [List.append_assoc]
      exact hb
    by_cases hc : c = []
    · subst hc
      show decodeFrom b ([] :: cs.map utf8Encode) = _
      rw [decodeFrom_cons, processChunk_empty]
      show ([] ++ (decodeFrom b (cs.map utf8Encode)).1,
        (decodeFrom b (cs.map utf8Encode)).2) = _
      rw [ih b rs hws (by simpa using hbc) hstuck]
      rfl
    · -- the chunk is nonempty, so the stream is nonempty and starts with `{`
      have hrs : rs ≠ [] := by
        intro hrs
        subst hrs
        have : (b ++ c) ++ joinChars cs = [] := hbc
        rcases List.append_eq_nil.mp this with ⟨h1, _⟩
        rcases List.append_eq_nil.mp h1 with ⟨_, h2⟩
        exact hc h2
      obtain ⟨q, tl, rfl⟩ : ∃ q tl, rs = q :: tl := by
        cases rs with
        | nil => exact absurd rfl hrs
        | cons q tl => exact ⟨q, tl, rfl⟩
      have hwbc : ∀ ch ∈ b ++ c, pyWs ch = false := by
        intro ch hch
        refine hws ch ?_
        rw [← hbc]
        exact List.mem_append_left _ hch
      have hwc : ∀ ch ∈ c, pyWs ch = false := fun ch hch =>
        hwbc ch (List.mem_append_right _ hch)
      have hstripc : pyStrip c = c := pyStrip_eq_self_of_all hwc
      -- head of b ++ c is the opening brace
      have hbc_ne : b ++ c ≠ [] := by
        intro he
        exact hc (List.append_eq_nil.mp he).2
      have hshape : ∃ t, b ++ c = lbrace :: t := by
        have h2 : ((b ++ c) ++ joinChars cs).take (b ++ c).length = b ++ c :=
          List.take_left _ _
        rw [hbc] at h2
        obtain ⟨w, hw⟩ : ∃ w, streamChars (q :: tl) = lbrace :: w := by
          rw [streamChars_cons, envChars, envHead_eq_cons]
          exact ⟨_, rfl⟩
        obtain ⟨n, hn⟩ : ∃ n, (b ++ c).length = n + 1 := by
          cases hbc0 : b ++ c with
          | nil => exact absurd hbc0 hbc_ne
          | cons z zs => exact ⟨zs.length, by simp [hbc0]⟩
        rw [hw, hn, List.take_succ_cons] at h2
        exact ⟨_, h2.symm⟩
      obtain ⟨t, ht⟩ := hshape
      have htag : dataTagAtFront (b ++ c) = false := by
        rw [ht]
        exact dataTagAtFront_lbrace t
      obtain ⟨qs, rs', b', hqs, hpl, hb'y, hstuck', hws''⟩ :=
        parseLoop_stream (q :: tl) (b ++ c) (joinChars cs) ((b ++ c).length + 1) hws hbc
          (by omega)
      show decodeFrom b (utf8Encode c :: cs.map utf8Encode) = _
      rw [decodeFrom_cons, processChunk_utf8 b c hc hstripc htag, hpl]
      show (qs.map (fun p => Json.str p.data) ++ (decodeFrom b' (cs.map utf8Encode)).1,
        (decodeFrom b' (cs.map utf8Encode)).2) = _
      rw [ih b' rs' hws'' hb'y hstuck', hqs, List.map_append]

/-! ## Edge facts about serialized envelope streams -/

theorem envTail_getLast : envTail.getLast? = some rbrace := rfl

theorem envChars_getLast (p : String) : (envChars p).getLast? = some rbrace := by
  simp [envChars, List.getLast?_append, envTail_getLast]

theorem streamChars_getLast : ∀ (ps : List String), ps ≠ [] →
    (streamChars ps).getLast? = some rbrace := by
  intro ps
  induction ps with
  | nil => intro h; exact absurd rfl h
  | cons p tl ih =>
    intro _
    rw [streamChars_cons, List.getLast?_append]
    cases tl with
    | nil => simp [streamChars, envChars_getLast]
    | cons q tl' => simp [ih (List.cons_ne_nil q tl')]

theorem streamChars_head (p : String) (tl : List String) :
    ∃ t, streamChars (p :: tl) = lbrace :: t := by
  rw [streamChars_cons, envChars, envHead_eq_cons]
  exact ⟨_, rfl⟩

/-- An envelope stream starts with `{` and ends with `}`, so Python `strip`
leaves it unchanged — even when payloads contain interior whitespace. -/
theorem pyStrip_streamChars (ps : List String) :
    pyStrip (streamChars ps) = streamChars ps := by
  cases ps with
  | nil => rfl
  | cons p tl =>
    refine pyStrip_eq_self_of_ends ?_ ?_
    · intro c hc
      obtain ⟨t, ht⟩ := streamChars_head p tl
      rw [ht, List.head?_cons] at hc
      injection hc with h
      rw [← h]
      decide
    · intro c hc
      rw [streamChars_getLast (p :: tl) (List.cons_ne_nil p tl)] at hc
      injection hc with h
      rw [← h]
      decide

theorem stuckLen_nil (ps : List String) : stuckLen ([] : List Char) ps := by
  cases ps with
  | nil => rfl
  | cons q tl =>
    show ([] : List Char).length < (envChars q).length
    have h0 : ([] : List Char).length = 0 := rfl
    have h1 := envChars_length_pos q
    omega

/-- The parse loop consumes a whole envelope stream delivered intact, yielding
every payload in order; no whitespace-freedom hypothesis is needed because the
only `strip`s applied touch the `{`/`}` edges. -/
theorem parseLoop_streamFull : ∀ (ps : List String) (f : Nat),
    (streamChars ps).length < f →
    parseLoop f (streamChars ps) =
      (ps.map (fun p => Json.str p.data), LoopOut.needMore []) := by
  intro ps
  induction ps with
  | nil =>
    intro f hf
    obtain ⟨f1, rfl⟩ : ∃ f1, f = f1 + 1 := ⟨f - 1, by omega⟩
    rw [parseLoop_succ]
    rfl
  | cons p tl ih =>
    intro f hf
    obtain ⟨f1, rfl⟩ : ∃ f1, f = f1 + 1 := ⟨f - 1, by omega⟩
    have hrd : rawDecode (streamChars (p :: tl)) = some (envVal p, streamChars tl) := by
      rw [streamChars_cons]
      exact rawDecode_env p (streamChars tl)
    have hlen : (streamChars tl).length < f1 := by
      have h1 := envChars_length_pos p
      have h2 : (streamChars (p :: tl)).length =
          (envChars p).length + (streamChars tl).length := by
        rw [streamChars_cons, List.length_append]
      omega
    rw [parseLoop_succ, hrd]
    show (Json.str p.data :: (parseLoop f1 (pyStrip (streamChars tl))).1,
      (parseLoop f1 (pyStrip (streamChars tl))).2) = _
    rw [pyStrip_streamChars, ih f1 hlen]
    rfl

theorem utf8Encode_ne_nil' (l : List Char) (hl : l ≠ []) : utf8Encode l ≠ [] := by
  intro he
  have h := length_le_utf8Encode_length l
  rw [he] at h
  have h0 : ([] : List Nat).length = 0 := rfl
  have h1 : l.length = 0 := by omega
  exact hl (List.length_eq_zero.mp h1)

theorem streamChars_ne_nil (p : String) (tl : List String) :
    streamChars (p :: tl) ≠ [] := by
  intro he
  have h1 := envChars_length_pos p
  have h2 := congrArg List.length he
  rw [streamChars_cons, List.length_append] at h2
  have h0 : ([] : List Char).length = 0 := rfl
  omega

theorem streamChars_singleton (p : String) : streamChars [p] = envChars p := by
  rw [streamChars_cons]
  exact List.append_nil _

theorem envChars_head (p : String) : ∃ t, envChars p = lbrace :: t := by
  rw [envChars, envHead_eq_cons]
  exact ⟨_, rfl⟩

theorem pyStrip_envChars (p : String) : pyStrip (envChars p) = envChars p := by
  refine pyStrip_eq_self_of_ends ?_ ?_
  · intro c hc
    obtain ⟨t, ht⟩ := envChars_head p
    rw [ht, List.head?_cons] at hc
    injection hc with h
    rw [← h]
    decide
  · intro c hc
    rw [envChars_getLast p] at hc
    injection hc with h
    rw [← h]
    decide

theorem dataTagAtFront_tag (l : List Char) : dataTagAtFront (dataTag ++ l) = true := by
  rw [dataTagAtFront, List.isPrefixOf_iff_prefix]
  exact List.prefix_append _ _

theorem dataTag_append_drop (l : List Char) : (dataTag ++ l).drop 5 = l := rfl

/-- A whole envelope stream in a single chunk decodes to its payloads. -/
theorem decodeStream_streamFull (p : String) (tl : List String) :
    decodeStream [utf8Encode (streamChars (p :: tl))] =
      ((p :: tl).map (fun q => Json.str q.data), StreamEnd.ended) := by
  have htag : dataTagAtFront ([] ++ streamChars (p :: tl)) = false := by
    obtain ⟨t, ht⟩ := streamChars_head p tl
    rw [List.nil_append, ht]
    exact dataTagAtFront_lbrace t
  show decodeFrom [] [utf8Encode (streamChars (p :: tl))] = _
  rw [decodeFrom_cons,
    processChunk_utf8 [] (streamChars (p :: tl)) (streamChars_ne_nil p tl)
      (pyStrip_streamChars (p :: tl)) htag,
    List.nil_append,
    parseLoop_streamFull (p :: tl) ((streamChars (p :: tl)).length + 1) (by omega)]
  show ((p :: tl).map (fun q => Json.str q.data) ++ (decodeFrom [] []).1,
    (decodeFrom [] []).2) = _
  rw [decodeFrom_nil]
  simp

/-- Processing one chunk that carries optional leading whitespace, the
`"data:"` framing tag, optional whitespace after the tag, and then the real
content: the tag and the whitespace are stripped and the parse loop runs on
the content alone. -/
theorem processChunk_tagged (w1 w2 rest : List Char)
    (hw1 : ∀ c ∈ w1, pyWs c = true) (hw2 : ∀ c ∈ w2, pyWs c = true)
    (hstrip : pyStrip rest = rest) (hrne : rest ≠ [])
    (hgl : ∀ c, rest.getLast? = some c → pyWs c = false) :
    processChunk [] (utf8Encode (w1 ++ (dataTag ++ (w2 ++ rest)))) =
      (match parseLoop (rest.length + 1) rest with
      | (ys, LoopOut.needMore b3) => (ys, ChunkOut.more b3)
      | (ys, LoopOut.terminalError cd m) => (ys, ChunkOut.terminalError cd m)
      | (ys, LoopOut.crashedLoop) => (ys, ChunkOut.crashedChunk)) := by
  have htne : w1 ++ (dataTag ++ (w2 ++ rest)) ≠ [] := by
    intro he
    rcases List.append_eq_nil.mp he with ⟨_, h1⟩
    rcases List.append_eq_nil.mp h1 with ⟨h2, _⟩
    exact absurd h2 (by decide)
  have hne : utf8Encode (w1 ++ (dataTag ++ (w2 ++ rest))) ≠ [] :=
    utf8Encode_ne_nil' _ htne
  have hX : pyStrip (w1 ++ (dataTag ++ (w2 ++ rest))) = dataTag ++ (w2 ++ rest) := by
    rw [pyStrip_ws_append hw1]
    refine pyStrip_eq_self_of_ends ?_ ?_
    · intro c hc
      have hd : dataTag ++ (w2 ++ rest) = 'd' :: ("ata:".data ++ (w2 ++ rest)) := rfl
      rw [hd, List.head?_cons] at hc
      injection hc with h
      rw [← h]
      decide
    · intro c hc
      obtain ⟨y, hy⟩ : ∃ y, rest.getLast? = some y := by
        cases rest with
        | nil => exact absurd rfl hrne
        | cons r rt => exact ⟨_, rfl⟩
      rw [List.getLast?_append, List.getLast?_append, hy] at hc
      have h2 : ((some y).or w2.getLast?).or dataTag.getLast? = some y := rfl
      rw [h2] at hc
      injection hc with h
      rw [← h]
      exact hgl y hy
  have hw2' : pyStrip (w2 ++ rest) = rest := by
    rw [pyStrip_ws_append hw2, hstrip]
  simp only [processChunk, hne, utf8Encode_decode, hX, List.nil_append,
    dataTagAtFront_tag, dataTag_append_drop, hw2', if_false, ite_false,
    Bool.false_eq_true, if_true, ite_true]

/-- A `data:`-tagged single chunk holding a whole envelope stream decodes to
the stream's payloads, exactly as the untagged chunk does. -/
theorem decodeStream_tagged_stream (w1 w2 : List Char) (p : String) (tl : List String)
    (hw1 : ∀ c ∈ w1, pyWs c = true) (hw2 : ∀ c ∈ w2, pyWs c = true) :
    decodeStream [utf8Encode (w1 ++ (dataTag ++ (w2 ++ streamChars (p :: tl))))] =
      ((p :: tl).map (fun q => Json.str q.data), StreamEnd.ended) := by
  have hgl : ∀ c, (streamChars (p :: tl)).getLast? = some c → pyWs c = false := by
    intro c hc
    rw [streamChars_getLast (p :: tl) (List.cons_ne_nil p tl)] at hc
    injection hc with h
    rw [← h]
    decide
  show decodeFrom [] [utf8Encode (w1 ++ (dataTag ++ (w2 ++ streamChars (p :: tl))))] = _
  rw [decodeFrom_cons,
    processChunk_tagged w1 w2 (streamChars (p :: tl)) hw1 hw2
      (pyStrip_streamChars (p :: tl)) (streamChars_ne_nil p tl) hgl,
    parseLoop_streamFull (p :: tl) ((streamChars (p :: tl)).length + 1) (by omega)]
  show ((p :: tl).map (fun q => Json.str q.data) ++ (decodeFrom [] []).1,
    (decodeFrom [] []).2) = _
  rw [decodeFrom_nil]
  simp

/-! ## Claim C1 -/

/-- Claim C1 counterexample: re-assembly is NOT idempotent as stated.  The
serialized byte stream of the single envelope carrying payload `"é"` decodes
to that payload when fed as one chunk, but splitting the same bytes at
position 40 — inside the two-byte UTF-8 encoding of `é` — makes both chunks
undecodable UTF-8, so each is silently dropped and the payload is lost;
likewise splitting the stream of the payload `"a b"` at character position 41
lands a chunk boundary inside the payload, and the per-chunk `.strip()`
deletes the interior space, corrupting the payload to `"ab"`. -/
theorem claim_C1_counterexample :
    (utf8Encode (streamChars ["é"])).take 40 ++ (utf8Encode (streamChars ["é"])).drop 40 =
      utf8Encode (streamChars ["é"]) ∧
    decodeStream [utf8Encode (streamChars ["é"])] =
      ([Json.str "é".data], StreamEnd.ended) ∧
    decodeStream [(utf8Encode (streamChars ["é"])).take 40,
        (utf8Encode (streamChars ["é"])).drop 40] = ([], StreamEnd.ended) ∧
    utf8Encode ((streamChars ["a b"]).take 41) ++ utf8Encode ((streamChars ["a b"]).drop 41) =
      utf8Encode (streamChars ["a b"]) ∧
    decodeStream [utf8Encode (streamChars ["a b"])] =
      ([Json.str "a b".data], StreamEnd.ended) ∧
    decodeStream [utf8Encode ((streamChars ["a b"]).take 41),
        utf8Encode ((streamChars ["a b"]).drop 41)] =
      ([Json.str "ab".data], StreamEnd.ended) :=
  ⟨by decide, rfl, rfl, by decide, rfl, rfl⟩

/-- Claim C1 (corrected): re-assembly is idempotent only for splits at UTF-8
character boundaries of a whitespace-free envelope stream: any such chunking
decodes to exactly the stream's payloads in order, the same output as the
whole stream delivered as a single chunk.  (Splits inside a multi-byte
codepoint, or streams whose payload text contains Python whitespace next to a
chunk boundary, can lose or corrupt data — see the counterexample.) -/
theorem claim_C1_amended (ps : List String) (chunks : List (List Char))
    (hws : ∀ c ∈ streamChars ps, pyWs c = false)
    (hjoin : joinChars chunks = streamChars ps) :
    decodeStream (chunks.map utf8Encode) =
      (ps.map (fun p => Json.str p.data), StreamEnd.ended) ∧
    decodeStream [utf8Encode (streamChars ps)] =
      (ps.map (fun p => Json.str p.data), StreamEnd.ended) := by
  constructor
  · show decodeFrom [] (chunks.map utf8Encode) = _
    refine decodeFrom_stream chunks [] ps hws ?_ (stuckLen_nil ps)
    rw [List.nil_append]
    exact hjoin
  · show decodeFrom [] (List.map utf8Encode [streamChars ps]) = _
    refine decodeFrom_stream [streamChars ps] [] ps hws ?_ (stuckLen_nil ps)
    simp [joinChars]

theorem claim_C1_amended_witness :
    (∀ c ∈ streamChars ["hi"], pyWs c = false) ∧
    joinChars [(streamChars ["hi"]).take 10, (streamChars ["hi"]).drop 10] =
      streamChars ["hi"] ∧
    (decodeStream ([(streamChars ["hi"]).take 10, (streamChars ["hi"]).drop 10].map utf8Encode) =
        ((["hi"] : List String).map (fun p => Json.str p.data), StreamEnd.ended) ∧
      decodeStream [utf8Encode (streamChars ["hi"])] =
        ((["hi"] : List String).map (fun p => Json.str p.data), StreamEnd.ended)) :=
  ⟨by decide, by decide,
    claim_C1_amended ["hi"] [(streamChars ["hi"]).take 10, (streamChars ["hi"]).drop 10]
      (by decide) (by decide)⟩

/-! ## Claim C5 -/

/-- Claim C5 (confirmed): a single chunk holding two or more complete
back-to-back success envelopes yields each payload as a separate element of
the output sequence, in order, and the stream then ends normally. -/
theorem claim_C5 (ps : List String) (h2 : 2 ≤ ps.length) :
    decodeStream [utf8Encode (streamChars ps)] =
      (ps.map (fun p => Json.str p.data), StreamEnd.ended) := by
  obtain ⟨p, tl, rfl⟩ : ∃ p tl, ps = p :: tl := by
    cases ps with
    | nil => exact absurd h2 (by decide)
    | cons p tl => exact ⟨p, tl, rfl⟩
  exact decodeStream_streamFull p tl

theorem claim_C5_witness :
    2 ≤ (["one", "two"] : List String).length ∧
    decodeStream [utf8Encode (streamChars ["one", "two"])] =
      ((["one", "two"] : List String).map (fun p => Json.str p.data), StreamEnd.ended) :=
  ⟨by decide, claim_C5 ["one", "two"] (by decide)⟩

/-! ## Claim C2 -/

theorem objGet_errEnv_code (cd ms : String) :
    objGet [("code".data, Json.str cd.data), ("msg".data, Json.str ms.data)]
      ("code".data) = some (Json.str cd.data) := rfl

theorem objGet_errEnv_msg (cd ms : String) :
    objGet [("code".data, Json.str cd.data), ("msg".data, Json.str ms.data)]
      ("msg".data) = some (Json.str ms.data) := rfl

theorem parseLoop_errEnv (cd ms : String) (hne : cd.data ≠ "0000".data) (f : Nat) :
    parseLoop (f + 1) (errEnvChars cd ms) =
      ([], LoopOut.terminalError (Json.str cd.data) (Json.str ms.data)) := by
  have hrd : rawDecode (errEnvChars cd ms) = some (errEnvVal cd ms, []) := by
    have h := rawDecode_errEnv cd ms []
    rwa [List.append_nil] at h
  rw [parseLoop_succ, hrd]
  show (if cd.data = "0000".data then
      ((Json.str [] :: (parseLoop f (pyStrip [])).1), (parseLoop f (pyStrip [])).2)
    else ([], LoopOut.terminalError (Json.str cd.data) (Json.str ms.data))) = _
  rw [if_neg hne]

theorem errEnvHead_eq_cons : errEnvHead = lbrace :: ("\"code\":\"").data := by decide

theorem errEnvChars_head (cd ms : String) :
    ∃ t, errEnvChars cd ms = lbrace :: t := by
  rw [errEnvChars, errEnvHead_eq_cons]
  simp only [List.cons_append]
  exact ⟨_, rfl⟩

theorem errEnvTail_getLast : errEnvTail.getLast? = some rbrace := rfl

theorem errEnvChars_getLast (cd ms : String) :
    (errEnvChars cd ms).getLast? = some rbrace := by
  simp [errEnvChars, List.getLast?_append, errEnvTail_getLast]

theorem pyStrip_errEnvChars (cd ms : String) :
    pyStrip (errEnvChars cd ms) = errEnvChars cd ms := by
  refine pyStrip_eq_self_of_ends ?_ ?_
  · intro c hc
    obtain ⟨t, ht⟩ := errEnvChars_head cd ms
    rw [ht, List.head?_cons] at hc
    injection hc with h
    rw [← h]
    decide
  · intro c hc
    rw [errEnvChars_getLast cd ms] at hc
    injection hc with h
    rw [← h]
    decide

theorem errEnvChars_ne_nil (cd ms : String) : errEnvChars cd ms ≠ [] := by
  intro he
  have h := errEnvChars_length cd ms
  rw [he] at h
  have h0 : ([] : List Char).length = 0 := rfl
  omega

/-- An error envelope in the first chunk short-circuits: the `(code, msg)`
pair travels in the generator's return and all later chunks are ignored. -/
theorem decodeStream_errEnv (cd ms : String) (later : List (List Nat))
    (hne : cd.data ≠ "0000".data) :
    decodeStream (utf8Encode (errEnvChars cd ms) :: later) =
      ([], StreamEnd.errorReturn (Json.str cd.data) (Json.str ms.data)) := by
  have htag : dataTagAtFront ([] ++ errEnvChars cd ms) = false := by
    obtain ⟨t, ht⟩ := errEnvChars_head cd ms
    rw [List.nil_append, ht]
    exact dataTagAtFront_lbrace t
  show decodeFrom [] (utf8Encode (errEnvChars cd ms) :: later) = _
  rw [decodeFrom_cons,
    processChunk_utf8 [] (errEnvChars cd ms) (errEnvChars_ne_nil cd ms)
      (pyStrip_errEnvChars cd ms) htag,
    List.nil_append,
    parseLoop_errEnv cd ms hne ((errEnvChars cd ms).length)]

/-- Claim C2 counterexample: the `(code, msg)` pair of a failed envelope is
NOT an element observable by the caller.  On the spec's own example —
`{"code":"5001","msg":"quota exceeded"}` followed by a later chunk holding a
further valid envelope — the generator yields no element at all (the output
element list is empty): the pair travels in the generator's `return`, i.e.
as a `StopIteration` value invisible to a `for` loop, and the later chunk is
indeed never consumed. -/
theorem claim_C2_counterexample :
    decodeStream [utf8Encode (errEnvChars "5001" "quota exceeded"),
        utf8Encode (streamChars ["next"])] =
      ([], StreamEnd.errorReturn (Json.str "5001".data)
        (Json.str "quota exceeded".data)) := rfl

/-- Claim C2 (corrected): an error envelope with code ≠ "0000" arriving as a
complete chunk short-circuits the stream — no later chunk is consumed, no
matter what it holds — and carries its `(code, msg)` pair out; but the pair
is the generator's *return value* (`StopIteration.value`), not a yielded
element, so the caller's element sequence is empty. -/
theorem claim_C2 (cd ms : String) (later : List (List Nat)) (hne : cd ≠ "0000") :
    decodeStream (utf8Encode (errEnvChars cd ms) :: later) =
      ([], StreamEnd.errorReturn (Json.str cd.data) (Json.str ms.data)) :=
  decodeStream_errEnv cd ms later (fun h => hne (String.ext h))

theorem claim_C2_witness :
    ("5001" : String) ≠ "0000" ∧
    decodeStream (utf8Encode (errEnvChars "5001" "quota exceeded") ::
        [utf8Encode (streamChars ["next"])]) =
      ([], StreamEnd.errorReturn (Json.str "5001".data)
        (Json.str "quota exceeded".data)) :=
  ⟨by decide,
    claim_C2 "5001" "quota exceeded" [utf8Encode (streamChars ["next"])] (by decide)⟩

/-! ## Claim C3 -/

/-- Claim C3 counterexample: a chunk sequence that ends while the buffer holds
the incomplete fragment `{"code":"0` produces exactly the same observable
outcome — no elements, normal `ended` termination — as the trivially complete
empty stream: no distinct "incomplete stream" error is ever signalled. -/
theorem claim_C3_counterexample :
    decodeStream [utf8Encode ("\x7b\"code\":\"0".data)] = ([], StreamEnd.ended) ∧
    decodeStream [] = ([], StreamEnd.ended) :=
  ⟨rfl, rfl⟩

/-- Claim C3 (corrected): when the chunk sequence terminates, the generator
simply falls off its `for` loop and ends normally, whatever residual
(possibly non-empty, incomplete) fragment the buffer still holds; the
truncation is silently indistinguishable from a complete stream's end. -/
theorem claim_C3 : ∀ b : List Char, decodeFrom b [] = ([], StreamEnd.ended) :=
  fun _ => rfl

/-! ## Claim C4 -/

/-- Claim C4 counterexample: the residual unparsed bytes are NOT preserved
verbatim.  A chunk holding one complete envelope followed by `" {"x"` leaves
the buffer as `{"x` — the loop's `buffer[index:].strip()` deleted the space —
so the bytes kept for the next chunk differ from the trailing bytes actually
left unparsed. -/
theorem claim_C4_counterexample :
    processChunk [] (utf8Encode (envChars "a" ++ (' ' :: "\x7b\"x".data))) =
      ([Json.str "a".data], ChunkOut.more ("\x7b\"x".data)) ∧
    ("\x7b\"x".data : List Char) ≠ ' ' :: "\x7b\"x".data :=
  ⟨rfl, by decide⟩

/-- Claim C4 (corrected): after a chunk that is a nonempty prefix of a
whitespace-free envelope stream, the loop has extracted exactly the complete
envelopes at the front of the buffer and keeps a residual that is strictly
shorter than the next envelope (so never treated as a complete unit) and
that completes the remaining stream byte for byte — i.e. the residual is
preserved verbatim only because strip is the identity on whitespace-free
text; in general the kept residual is the Python-strip of the unparsed
trailing bytes (see the counterexample). -/
theorem claim_C4 (ps : List String) (x y : List Char)
    (hws : ∀ c ∈ streamChars ps, pyWs c = false)
    (hxy : x ++ y = streamChars ps) (hxne : x ≠ []) :
    ∃ qs rs' b', ps = qs ++ rs' ∧
      processChunk [] (utf8Encode x) =
        (qs.map (fun p => Json.str p.data), ChunkOut.more b') ∧
      b' ++ y = streamChars rs' ∧ stuckLen b' rs' := by
  obtain ⟨a, t, rfl⟩ : ∃ a t, x = a :: t := by
    cases x with
    | nil => exact absurd rfl hxne
    | cons a t => exact ⟨a, t, rfl⟩
  have hwsx : ∀ c ∈ a :: t, pyWs c = false := by
    intro c hc
    refine hws c ?_
    rw [← hxy]
    exact List.mem_append_left y hc
  have hstrip : pyStrip (a :: t) = a :: t := pyStrip_eq_self_of_all hwsx
  obtain ⟨p, tl, rfl⟩ : ∃ p tl, ps = p :: tl := by
    cases ps with
    | nil =>
      exfalso
      have h := hxy
      rcases List.append_eq_nil.mp h with ⟨h1, _⟩
      exact List.cons_ne_nil a t h1
    | cons p tl => exact ⟨p, tl, rfl⟩
  have ha : a = lbrace := by
    obtain ⟨w, hw⟩ := streamChars_head p tl
    rw [hw, List.cons_append] at hxy
    injection hxy with h1 _
  have htag : dataTagAtFront ([] ++ (a :: t)) = false := by
    rw [List.nil_append, ha]
    exact dataTagAtFront_lbrace t
  obtain ⟨qs, rs', b', hqs, hpl, hby, hstuck, _⟩ :=
    parseLoop_stream (p :: tl) (a :: t) y ((a :: t).length + 1) hws hxy (by omega)
  refine ⟨qs, rs', b', hqs, ?_, hby, hstuck⟩
  rw [processChunk_utf8 [] (a :: t) (List.cons_ne_nil a t) hstrip htag,
    List.nil_append, hpl]

theorem claim_C4_witness :
    (∀ c ∈ streamChars ["ab"], pyWs c = false) ∧
    (streamChars ["ab"]).take 10 ++ (streamChars ["ab"]).drop 10 = streamChars ["ab"] ∧
    (∃ qs rs' b', (["ab"] : List String) = qs ++ rs' ∧
      processChunk [] (utf8Encode ((streamChars ["ab"]).take 10)) =
        (qs.map (fun p => Json.str p.data), ChunkOut.more b') ∧
      b' ++ (streamChars ["ab"]).drop 10 = streamChars rs' ∧ stuckLen b' rs') :=
  ⟨by decide, by decide,
    claim_C4 ["ab"] ((streamChars ["ab"]).take 10) ((streamChars ["ab"]).drop 10)
      (by decide) (by decide) (by decide)⟩

/-! ## Claim C6 -/

/-- Claim C6 (confirmed): a leading `"data:"` tag, with any Python whitespace
before and after it, is stripped and the decode proceeds exactly as without
the tag; the spec's concrete prefixed input yields the payload `"hi"`. -/
theorem claim_C6 (ps : List String) (w1 w2 : List Char) (hps : ps ≠ [])
    (hw1 : ∀ c ∈ w1, pyWs c = true) (hw2 : ∀ c ∈ w2, pyWs c = true) :
    decodeStream [utf8Encode (w1 ++ (dataTag ++ (w2 ++ streamChars ps)))] =
      decodeStream [utf8Encode (streamChars ps)] ∧
    decodeStream [utf8Encode
        ("data: \x7b\"code\":\"0000\",\"msg\":\"\",\"data\":\x7b\"msg\":\"hi\"\x7d\x7d".data)] =
      ([Json.str "hi".data], StreamEnd.ended) := by
  obtain ⟨p, tl, rfl⟩ : ∃ p tl, ps = p :: tl := by
    cases ps with
    | nil => exact absurd rfl hps
    | cons p tl => exact ⟨p, tl, rfl⟩
  exact ⟨by rw [decodeStream_tagged_stream w1 w2 p tl hw1 hw2,
    decodeStream_streamFull p tl], rfl⟩

theorem claim_C6_witness :
    (["hi"] : List String) ≠ [] ∧ (∀ c ∈ [' '], pyWs c = true) ∧
    (decodeStream [utf8Encode ([' '] ++ (dataTag ++ ([' '] ++ streamChars ["hi"])))] =
        decodeStream [utf8Encode (streamChars ["hi"])] ∧
      decodeStream [utf8Encode
          ("data: \x7b\"code\":\"0000\",\"msg\":\"\",\"data\":\x7b\"msg\":\"hi\"\x7d\x7d".data)] =
        ([Json.str "hi".data], StreamEnd.ended)) :=
  ⟨by decide, by decide,
    claim_C6 ["hi"] [' '] [' '] (by decide) (by decide) (by decide)⟩

/-! ## Claim C7 -/

theorem jsonLoads_envChars (p : String) : jsonLoads (envChars p) = some (envVal p) := by
  have hrd : rawDecode (envChars p) = some (envVal p, []) := by
    have h := rawDecode_env p []
    rwa [List.append_nil] at h
  have hsk : skipWs (envChars p) = envChars p := by
    obtain ⟨t, ht⟩ := envChars_head p
    rw [ht]
    exact skipWs_lbrace t
  unfold jsonLoads
  rw [hsk, hrd]
  rfl

theorem jsonLoads_errEnvChars (cd ms : String) :
    jsonLoads (errEnvChars cd ms) = some (errEnvVal cd ms) := by
  have hrd : rawDecode (errEnvChars cd ms) = some (errEnvVal cd ms, []) := by
    have h := rawDecode_errEnv cd ms []
    rwa [List.append_nil] at h
  have hsk : skipWs (errEnvChars cd ms) = errEnvChars cd ms := by
    obtain ⟨t, ht⟩ := errEnvChars_head cd ms
    rw [ht]
    exact skipWs_lbrace t
  unfold jsonLoads
  rw [hsk, hrd]
  rfl

/-- `_get_full_response` after the content has been identified and parsed to a
JSON object: the envelope dispatch on `code`. -/
theorem fullResponse_parsed (body content : List Char) (ms : List (List Char × Json))
    (hcontent : (if dataTagAtFront body then pyStrip (body.drop 5) else body) = content)
    (hjl : jsonLoads content = some (Json.obj ms)) :
    fullResponse body =
      (match objGet ms ("code".data) with
      | some (Json.str s) =>
        if s = "0000".data then
          match envPayload ms with
          | some pl => FullOut.payload pl
          | none => FullOut.raised
        else FullOut.errPair (Json.str s) ((objGet ms ("msg".data)).getD (Json.str []))
      | some other => FullOut.errPair other ((objGet ms ("msg".data)).getD (Json.str []))
      | none => FullOut.errPair (Json.str [])
          ((objGet ms ("msg".data)).getD (Json.str []))) := by
  unfold fullResponse
  rw [hcontent]
  show (match jsonLoads content with
    | none => FullOut.raised
    | some (Json.obj msv) =>
      match objGet msv ("code".data) with
      | some (Json.str s) =>
        if s = "0000".data then
          match envPayload msv with
          | some pl => FullOut.payload pl
          | none => FullOut.raised
        else FullOut.errPair (Json.str s) ((objGet msv ("msg".data)).getD (Json.str []))
      | some other => FullOut.errPair other ((objGet msv ("msg".data)).getD (Json.str []))
      | none => FullOut.errPair (Json.str []) ((objGet msv ("msg".data)).getD (Json.str []))
    | some _ => FullOut.raised) = _
  rw [hjl]

theorem fullResponse_envChars (p : String) :
    fullResponse (envChars p) = FullOut.payload (Json.str p.data) := by
  have hcontent : (if dataTagAtFront (envChars p) then pyStrip ((envChars p).drop 5)
      else envChars p) = envChars p := by
    obtain ⟨t, ht⟩ := envChars_head p
    rw [ht, dataTagAtFront_lbrace]
    rfl
  rw [fullResponse_parsed (envChars p) (envChars p)
    [("code".data, Json.str ("0000".data)), ("msg".data, Json.str []),
     ("data".data, Json.obj [("msg".data, Json.str p.data)])] hcontent
    (jsonLoads_envChars p)]
  rfl

theorem fullResponse_errEnvChars (cd ms : String) (hne : cd.data ≠ "0000".data) :
    fullResponse (errEnvChars cd ms) =
      FullOut.errPair (Json.str cd.data) (Json.str ms.data) := by
  have hcontent : (if dataTagAtFront (errEnvChars cd ms)
      then pyStrip ((errEnvChars cd ms).drop 5) else errEnvChars cd ms) =
      errEnvChars cd ms := by
    obtain ⟨t, ht⟩ := errEnvChars_head cd ms
    rw [ht, dataTagAtFront_lbrace]
    rfl
  rw [fullResponse_parsed (errEnvChars cd ms) (errEnvChars cd ms)
    [("code".data, Json.str cd.data), ("msg".data, Json.str ms.data)] hcontent
    (jsonLoads_errEnvChars cd ms)]
  show (if cd.data = "0000".data then FullOut.payload (Json.str [])
    else FullOut.errPair (Json.str cd.data) (Json.str ms.data)) = _
  rw [if_neg hne]

theorem fullResponse_tagged_envChars (p : String) :
    fullResponse (dataTag ++ (' ' :: envChars p)) = FullOut.payload (Json.str p.data) := by
  have h1 : (if dataTagAtFront (dataTag ++ (' ' :: envChars p))
      then pyStrip ((dataTag ++ (' ' :: envChars p)).drop 5)
      else dataTag ++ (' ' :: envChars p)) = pyStrip ([' '] ++ envChars p) := by
    rw [dataTagAtFront_tag, dataTag_append_drop]
    rfl
  have h2 : pyStrip ([' '] ++ envChars p) = pyStrip (envChars p) :=
    pyStrip_ws_append (by decide)
  have hcontent : (if dataTagAtFront (dataTag ++ (' ' :: envChars p))
      then pyStrip ((dataTag ++ (' ' :: envChars p)).drop 5)
      else dataTag ++ (' ' :: envChars p)) = envChars p := by
    rw [h1, h2, pyStrip_envChars]
  rw [fullResponse_parsed (dataTag ++ (' ' :: envChars p)) (envChars p)
    [("code".data, Json.str ("0000".data)), ("msg".data, Json.str []),
     ("data".data, Json.obj [("msg".data, Json.str p.data)])] hcontent
    (jsonLoads_envChars p)]
  rfl

/-- Claim C7 (confirmed): on a body holding one complete envelope — success,
`data:`-prefixed success, or error — the non-streaming `_get_full_response`
returns exactly what the streaming path observably produces on that body as
its only chunk (`matchFull` maps a returned payload to one yielded element
plus normal end, and an error pair to an empty yield with the pair as the
generator's return); a success envelope with no `data.msg` defaults to the
empty string. -/
theorem claim_C7 (p cd ms : String) (hcd : cd ≠ "0000") :
    matchFull (fullResponse (envChars p)) = decodeStream [utf8Encode (envChars p)] ∧
    matchFull (fullResponse (dataTag ++ (' ' :: envChars p))) =
      decodeStream [utf8Encode (dataTag ++ (' ' :: envChars p))] ∧
    matchFull (fullResponse (errEnvChars cd ms)) =
      decodeStream [utf8Encode (errEnvChars cd ms)] ∧
    fullResponse ("\x7b\"code\":\"0000\",\"msg\":\"ok\"\x7d".data) =
      FullOut.payload (Json.str []) := by
  have hcd' : cd.data ≠ "0000".data := fun h => hcd (String.ext h)
  refine ⟨?_, ?_, ?_, rfl⟩
  · rw [fullResponse_envChars p, ← streamChars_singleton p, decodeStream_streamFull p []]
    rfl
  · rw [fullResponse_tagged_envChars p,
      show dataTag ++ (' ' :: envChars p) = [] ++ (dataTag ++ ([' '] ++ streamChars [p]))
        from by rw [streamChars_singleton]; rfl,
      decodeStream_tagged_stream [] [' '] p [] (by decide) (by decide)]
    rfl
  · rw [fullResponse_errEnvChars cd ms hcd', decodeStream_errEnv cd ms [] hcd']
    rfl

theorem claim_C7_witness :
    ("500" : String) ≠ "0000" ∧
    (matchFull (fullResponse (envChars "hi")) =
        decodeStream [utf8Encode (envChars "hi")] ∧
      matchFull (fullResponse (dataTag ++ (' ' :: envChars "hi"))) =
        decodeStream [utf8Encode (dataTag ++ (' ' :: envChars "hi"))] ∧
      matchFull (fullResponse (errEnvChars "500" "m")) =
        decodeStream [utf8Encode (errEnvChars "500" "m")] ∧
      fullResponse ("\x7b\"code\":\"0000\",\"msg\":\"ok\"\x7d".data) =
        FullOut.payload (Json.str [])) :=
  ⟨by decide, claim_C7 "hi" "500" "m" (by decide)⟩

/-! ## Claim C8 -/

/-- Claim C8 (confirmed): a chunk whose bytes do not decode as UTF-8 is
dropped whole — no element is produced, no error is surfaced, and the buffer
is untouched, so the rest of the sequence decodes exactly as if the malformed
chunk had never been delivered. -/
theorem claim_C8 (b : List Char) (bad : List Nat) (rest : List (List Nat))
    (hbad : utf8Decode bad = none) :
    decodeFrom b (bad :: rest) = decodeFrom b rest := by
  rw [decodeFrom_cons, processChunk_invalid b bad hbad]
  show ([] ++ (decodeFrom b rest).1, (decodeFrom b rest).2) = _
  rfl

theorem claim_C8_witness :
    utf8Decode [255] = none ∧
    decodeFrom ("ab".data) [[255], utf8Encode (streamChars ["x"])] =
      decodeFrom ("ab".data) [utf8Encode (streamChars ["x"])] :=
  ⟨rfl, claim_C8 ("ab".data) [255] [utf8Encode (streamChars ["x"])] rfl⟩

/-! ## Claim C9 -/

/-- Claim C9 (confirmed): the default `start_time` and `end_time` of
`search_video_metadata` are evaluated once, when the class body executes at
module import; a call that omits them sends the import-time pair — one week
before import and the import instant — and the call-time clock never enters
the parameters. -/
theorem claim_C9 (m : MaviModuleState) (t1 t2 : ℚ) (vs : String) (pg n : ℤ) :
    searchVideoMetadataParams m t1 none none vs pg n =
      searchVideoMetadataParams m t2 none none vs pg n ∧
    (searchVideoMetadataParams m t1 none none vs pg n).startTime =
      defaultStartTime m ∧
    (searchVideoMetadataParams m t1 none none vs pg n).endTime = defaultEndTime m :=
  ⟨rfl, rfl, rfl⟩

/-! ## Claim C10 -/

/-- Claim C10 (confirmed): the pymavi package's `chat_with_videos` always
issues one buffered POST to `chat` (the transport `stream=` flag is never
set) and returns `_make_request`'s parsed body unchanged for every value of
`stream`; the argument's only effect is the `"stream"` field of the request
body. -/
theorem claim_C10 (videoNos : List String) (message : String) (history : List Json)
    (stream : Bool) (status : Nat) (body : Json) :
    chatWithVideos videoNos message history stream status body =
      ({ method := "POST", endpoint := "chat",
         jsonBody := chatBody videoNos message history stream,
         streamTransport := false }, makeRequestOutcome status body) :=
  rfl

end Mavi
